import Mathlib

/-!
Verification of the MagicWall election-map aggregation core
(`src/election-map.js`) against its natural-language specification.

The JavaScript is shallowly embedded: JS `Map` objects become association
lists over `String` keys (`AssocL`), preserving insertion order and the
replace-in-place semantics of `Map.set`; JS numbers holding vote counts
become `Int`; `parseInt` results are `Option Int` (`none` models `NaN`);
strings are Lean `String`s with ASCII case conversion (the data is ASCII).
-/

namespace MagicWall

/-- Association list keyed by strings, modelling a JS `Map` (insertion
order preserved, `set` replaces in place). -/
abbrev AssocL (α : Type) := List (String × α)

/-- `Map.get`: first binding of the key, if any. -/
def lookupA {α : Type} : AssocL α → String → Option α
  | [], _ => none
  | (k', v) :: rest, k => if k' = k then some v else lookupA rest k

/-- `Map.set`: replace the value at the key in place, else append. -/
def setA {α : Type} : AssocL α → String → α → AssocL α
  | [], k, v => [(k, v)]
  | (k', w) :: rest, k, v =>
      if k' = k then (k', v) :: rest else (k', w) :: setA rest k v

/-- The JS idiom `if (!m.has(k)) m.set(k, d); m.set(k, f(m.get(k)))`
(or in-place mutation of the object retrieved by `m.get(k)`):
apply `f` to the current value (default `d`), keeping the key's position. -/
def modifyA {α : Type} : AssocL α → String → α → (α → α) → AssocL α
  | [], k, d, f => [(k, f d)]
  | (k', v) :: rest, k, d, f =>
      if k' = k then (k', f v) :: rest else (k', v) :: modifyA rest k d f

/-- `Map.has`. -/
def hasKeyA {α : Type} (m : AssocL α) (k : String) : Bool :=
  (lookupA m k).isSome

/-- The key list of a map, in insertion order (`Array.from(m.keys())`). -/
def keysA {α : Type} (m : AssocL α) : List String := m.map Prod.fst

@[simp] theorem lookupA_nil {α : Type} (k : String) : lookupA ([] : AssocL α) k = none := rfl

theorem lookupA_cons {α : Type} (k' k : String) (v : α) (rest : AssocL α) :
    lookupA ((k', v) :: rest) k = if k' = k then some v else lookupA rest k := rfl

theorem lookupA_setA {α : Type} (m : AssocL α) (k k' : String) (v : α) :
    lookupA (setA m k v) k' = if k = k' then some v else lookupA m k' := by
  induction m with
  | nil =>
      by_cases h : k = k' <;> simp [setA, lookupA, h]
  | cons hd tl ih =>
      obtain ⟨k₀, v₀⟩ := hd
      by_cases h0 : k₀ = k
      · subst h0
        by_cases h1 : k₀ = k' <;> simp [setA, lookupA, h1]
      · by_cases h1 : k₀ = k'
        · subst h1
          by_cases h2 : k₀ = k
          · exact absurd h2 h0
          · simp [setA, h0, lookupA, Ne.symm h0]
        · simp [setA, h0, lookupA, h1, ih]

theorem lookupA_modifyA {α : Type} (m : AssocL α) (k k' : String) (d : α) (f : α → α) :
    lookupA (modifyA m k d f) k' =
      if k = k' then some (f ((lookupA m k).getD d)) else lookupA m k' := by
  induction m with
  | nil =>
      by_cases h : k = k' <;> simp [modifyA, lookupA, h]
  | cons hd tl ih =>
      obtain ⟨k₀, v₀⟩ := hd
      by_cases h0 : k₀ = k
      · subst h0
        by_cases h1 : k₀ = k' <;> simp [modifyA, lookupA, h1]
      · by_cases h1 : k₀ = k'
        · subst h1
          simp [modifyA, h0, lookupA, Ne.symm h0]
        · simp [modifyA, h0, lookupA, h1, ih]

theorem setA_self {α : Type} (m : AssocL α) (k : String) (v : α)
    (h : lookupA m k = some v) : setA m k v = m := by
  induction m with
  | nil => simp [lookupA] at h
  | cons hd tl ih =>
      obtain ⟨k₀, v₀⟩ := hd
      by_cases h0 : k₀ = k
      · subst h0
        simp [lookupA] at h
        simp [setA, h]
      · simp [lookupA, h0] at h
        simp [setA, h0, ih h]

theorem setA_append_of_not_mem {α : Type} (m : AssocL α) (k : String) (v : α)
    (h : k ∉ keysA m) : setA m k v = m ++ [(k, v)] := by
  induction m with
  | nil => rfl
  | cons hd tl ih =>
      obtain ⟨k₀, v₀⟩ := hd
      simp only [keysA, List.map, List.mem_cons, not_or] at h
      simp [setA, Ne.symm h.1, ih (by simpa [keysA] using h.2)]

theorem modifyA_self {α : Type} (m : AssocL α) (k : String) (d : α) (f : α → α) (v : α)
    (h : lookupA m k = some v) (hf : f v = v) : modifyA m k d f = m := by
  induction m with
  | nil => simp [lookupA] at h
  | cons hd tl ih =>
      obtain ⟨k₀, v₀⟩ := hd
      by_cases h0 : k₀ = k
      · subst h0
        simp [lookupA] at h
        simp [modifyA, h, hf]
      · simp [lookupA, h0] at h
        simp [modifyA, h0, ih h]

theorem keysA_modifyA {α : Type} (m : AssocL α) (k : String) (d : α) (f : α → α) :
    keysA (modifyA m k d f) = if k ∈ keysA m then keysA m else keysA m ++ [k] := by
  induction m with
  | nil => simp [modifyA, keysA]
  | cons hd tl ih =>
      obtain ⟨k₀, v₀⟩ := hd
      by_cases h0 : k₀ = k
      · subst h0
        simp [modifyA, keysA]
      · have hne : ¬ k = k₀ := fun h => h0 h.symm
        simp only [keysA, List.map] at ih ⊢
        simp only [modifyA, h0, if_false, List.map, List.mem_cons, hne, false_or, ih]
        split <;> rfl

theorem nodup_keysA_modifyA {α : Type} (m : AssocL α) (k : String) (d : α) (f : α → α)
    (h : (keysA m).Nodup) : (keysA (modifyA m k d f)).Nodup := by
  rw [keysA_modifyA]
  by_cases hmem : k ∈ keysA m
  · simpa [hmem] using h
  · simp only [hmem, if_false]
    exact List.Nodup.append h (List.nodup_singleton k) (by simpa using hmem)

theorem mem_modifyA {α : Type} (m : AssocL α) (k : String) (d : α) (f : α → α)
    (k' : String) (v' : α) (h : (k', v') ∈ modifyA m k d f) :
    (k', v') ∈ m ∨ (k' = k ∧ v' = f ((lookupA m k).getD d)) := by
  induction m with
  | nil =>
      simp [modifyA] at h
      right; exact ⟨h.1, by simp [h.2, lookupA]⟩
  | cons hd tl ih =>
      obtain ⟨k₀, v₀⟩ := hd
      by_cases h0 : k₀ = k
      · subst h0
        simp [modifyA] at h
        rcases h with ⟨hk, hv⟩ | hmem
        · right; exact ⟨hk, by simp [hv, lookupA]⟩
        · left; exact List.mem_cons_of_mem _ hmem
      · simp [modifyA, h0] at h
        rcases h with ⟨hk, hv⟩ | hmem
        · left; simp [hk, hv]
        · rcases ih hmem with hin | ⟨hk, hv⟩
          · left; exact List.mem_cons_of_mem _ hin
          · right; exact ⟨hk, by simpa [lookupA, h0] using hv⟩

theorem lookupA_eq_none_of_not_mem {α : Type} (m : AssocL α) (k : String)
    (h : k ∉ keysA m) : lookupA m k = none := by
  induction m with
  | nil => rfl
  | cons hd tl ih =>
      obtain ⟨k₀, v₀⟩ := hd
      simp only [keysA, List.map, List.mem_cons, not_or] at h
      simp [lookupA, Ne.symm h.1, ih (by simpa [keysA] using h.2)]

theorem lookupA_mem {α : Type} (m : AssocL α) (k : String) (v : α)
    (h : lookupA m k = some v) : (k, v) ∈ m := by
  induction m with
  | nil => simp [lookupA] at h
  | cons hd tl ih =>
      obtain ⟨k₀, v₀⟩ := hd
      by_cases h0 : k₀ = k
      · subst h0
        simp [lookupA] at h
        simp [h]
      · simp [lookupA, h0] at h
        exact List.mem_cons_of_mem _ (ih h)

/-! ### String primitives (ASCII models of the JS string operations) -/

/-- ASCII model of `Character` upper-casing used by `toUpperCase()`. -/
def upChar (c : Char) : Char :=
  if 97 ≤ c.toNat ∧ c.toNat ≤ 122 then Char.ofNat (c.toNat - 32) else c

/-- ASCII model of `Character` lower-casing used by `toLowerCase()`. -/
def lowChar (c : Char) : Char :=
  if 65 ≤ c.toNat ∧ c.toNat ≤ 90 then Char.ofNat (c.toNat + 32) else c

/-- `s.toUpperCase()` (ASCII). -/
def upStr (s : String) : String := String.mk (s.toList.map upChar)

/-- `s.toLowerCase()` (ASCII). -/
def lowStr (s : String) : String := String.mk (s.toList.map lowChar)

/-- `s.trim()` (ASCII space; the election data carries no exotic whitespace). -/
def trimStr (s : String) : String :=
  String.mk (((s.toList.dropWhile (· = ' ')).reverse.dropWhile (· = ' ')).reverse)

/-- Does `hay` start with `needle`? -/
def startsList : List Char → List Char → Bool
  | [], _ => true
  | _ :: _, [] => false
  | a :: as, b :: bs => a = b && startsList as bs

/-- Is `needle` a contiguous segment of `hay`? -/
def segIn (needle : List Char) : List Char → Bool
  | [] => needle.isEmpty
  | b :: bs => startsList needle (b :: bs) || segIn needle bs

/-- `hay.includes(needle)`: substring containment. -/
def subStr (needle hay : String) : Bool :=
  segIn needle.toList hay.toList

/-- `s.substring(0, n)`. -/
def takeStr (s : String) (n : Nat) : String := String.mk (s.toList.take n)

/-- `s.substring(n)`. -/
def dropStr (s : String) (n : Nat) : String := String.mk (s.toList.drop n)

/-- `s.length`. -/
def lenStr (s : String) : Nat := s.toList.length

/-- `parseInt(s).toString()` for a nonempty all-digit `s`: strip leading
zeros (all-zeros collapse to `"0"`). -/
def stripZeros (s : String) : String :=
  let t := s.toList.dropWhile (· = '0')
  if t.isEmpty then "0" else String.mk t

/-! ### Data model (`RawRow`, finalized candidates and results) -/

/-- A parsed CSV row (`d` in the source). `candidatevotes` holds the result
of `parseInt(d.candidatevotes)`: `none` models `NaN` (missing/unparsable). -/
structure Row where
  year : String
  state : String
  county_fips : String
  county_name : String
  candidate : String
  party : String
  mode : String
  candidatevotes : Option Int
deriving DecidableEq

/-- A finalized candidate record pushed into `candidateArray`. -/
structure Candidate where
  candidate : String
  party : String
  votes : Int
  countyName : String
  modeLabel : String
deriving DecidableEq

/-- A per-(year, county) accumulator: `{ modes: Map, name }`. -/
structure CountyAcc where
  modes : AssocL (AssocL Int)
  name : String
deriving DecidableEq

/-- A finalized `CountyResult` stored in `this.countyResults`. -/
structure CountyRes where
  winner : String
  votes : AssocL Int
  state : String
  name : String
  candidates : List Candidate
deriving DecidableEq

/-- A finalized `StateResult` stored in `this.stateResults`. -/
structure StateRes where
  winner : String
  votes : AssocL Int
deriving DecidableEq

/-! ### Party Normalizer, Winner Resolver, fixed lookup tables -/

/-- `normalizeParty` (source lines 608-618). -/
def normalizeParty (party : String) : String :=
  let partyLower := lowStr party
  if subStr "republican" partyLower || subStr "gop" partyLower then "REPUBLICAN"
  else if subStr "democrat" partyLower then "DEMOCRAT"
  else trimStr (upStr party)

/-- `determineWinner` (source lines 696-711): fold over the entries with a
running `(maxVotes, winner)` pair started at `(0, "UNKNOWN")`. -/
def determineWinner (votes : AssocL Int) : String :=
  (votes.foldl (fun acc pr => if pr.2 > acc.1 then (pr.2, pr.1) else acc)
    ((0 : Int), "UNKNOWN")).2

/-- The Alaska district-to-borough FIPS table (source lines 18-26). -/
def alaskaPairs : AssocL String :=
  [("2001", "02240"), ("2002", "02290"), ("2003", "02180"), ("2004", "02188"),
   ("2005", "02185"), ("2006", "02090"), ("2007", "02068"), ("2008", "02170"),
   ("2009", "02020"), ("2010", "02261"), ("2011", "02122"), ("2012", "02150"),
   ("2013", "02164"), ("2014", "02060"), ("2015", "02070"), ("2016", "02050"),
   ("2017", "02270"), ("2018", "02013"), ("2019", "02016"), ("2020", "02220"),
   ("2021", "02100"), ("2022", "02110"), ("2023", "02230"), ("2024", "02282"),
   ("2025", "02275"), ("2026", "02195"), ("2027", "02198"), ("2028", "02130"),
   ("2029", "02105"), ("2030", "02063"), ("2031", "02066"), ("2032", "02158")]

/-- `this.alaskaFipsMapping[county]` (`none` models `undefined`). -/
def alaskaFipsMapping (county : String) : Option String := lookupA alaskaPairs county

/-- The Georgia correction table (source lines 29-31). -/
def georgiaFipsMapping (topoId : String) : Option String :=
  if topoId = "13211" then some "13209" else none

/-- Storage-key computation of `calculateResults` (source lines 648-653):
Alaska district FIPS are remapped to borough FIPS, everything else is
stored under the election-data county id. -/
def storageKeyOf (stateName county : String) : String :=
  if stateName = "ALASKA" ∧ (alaskaFipsMapping county).isSome
  then (alaskaFipsMapping county).getD county
  else county

/-! ### Record Aggregator: validation and accumulation (source 513-549) -/

/-- Over/under-vote detection on the upper-cased trimmed candidate label
(source lines 527-530). -/
def isOverUnder (cu : String) : Bool :=
  cu = "OVERVOTES" || cu = "UNDERVOTES" || cu = "OVER VOTES" || cu = "UNDER VOTES" ||
  subStr "OVERVOTE" cu || subStr "UNDERVOTE" cu

/-- Row validation of `processElectionData` (source lines 522-530): a row is
silently discarded when this returns `true`. `!votes` is true for `NaN`
(here `none`) and for `0`. -/
def dropRow (d : Row) : Bool :=
  d.year = "year" || d.county_fips = "" ||
  (match d.candidatevotes with
   | none => true
   | some v => v = 0 || v < 0) ||
  d.candidate = "TOTAL VOTES CAST" || d.candidate = "" ||
  isOverUnder (trimStr (upStr d.candidate))

/-- `parseInt(d.candidatevotes)` where the row was kept (`0` never reached). -/
def votesOf (d : Row) : Int := d.candidatevotes.getD 0

/-- `d.mode || 'TOTAL'`: an absent or empty mode string is the falsy case. -/
def modeOf (d : Row) : String := if d.mode = "" then "TOTAL" else d.mode

/-- Rhode Island pre-normalization (source lines 532-534): a 10-character
town code is truncated to its first 5 characters. -/
def countyKey (d : Row) : String :=
  if d.state = "RHODE ISLAND" ∧ ¬ d.county_fips = "" ∧ lenStr d.county_fips = 10
  then takeStr d.county_fips 5
  else d.county_fips

/-- The nested raw accumulation: year to state to county accumulator. -/
abbrev RawData := AssocL (AssocL (AssocL CountyAcc))

/-- One `csvData.forEach` step of `processElectionData` (source 513-549):
validate, pre-normalize, then accumulate
`rawData[year][state][county].modes[mode][party] += votes`. -/
def buildStep (m : RawData) (d : Row) : RawData :=
  if dropRow d then m else
  let county := countyKey d
  let party := normalizeParty d.party
  let votes := votesOf d
  let mode := modeOf d
  modifyA m d.year [] (fun ym =>
    modifyA ym d.state [] (fun sm =>
      modifyA sm county ⟨[], d.county_name⟩ (fun acc =>
        { acc with modes := modifyA acc.modes mode [] (fun pm =>
            modifyA pm party 0 (· + votes)) })))

/-- The full first pass over the rows. -/
def buildRawData (rows : List Row) : RawData := rows.foldl buildStep []

/-! ### Mode Resolver (source 562-586) -/

/-- The fixed component-mode set excluded by the filter (source line 577). -/
def excludedModes : List String :=
  ["EARLY VOTING", "LATE EARLY VOTING", "ELECTION DAY", "PROVISIONAL",
   "ABSENTEE", "MAIL-IN", "ABSENTEE BY MAIL"]

/-- `source.forEach((votes, party) => finalVotes.set(party, votes))`. -/
def copyFold (fv : AssocL Int) (src : AssocL Int) : AssocL Int :=
  src.foldl (fun fv pr => setA fv pr.1 pr.2) fv

/-- `modes.get(mode).forEach((votes, party) => finalVotes.set(party,
(finalVotes.get(party) || 0) + votes))`. -/
def sumFold (fv : AssocL Int) (src : AssocL Int) : AssocL Int :=
  src.foldl (fun fv pr => modifyA fv pr.1 0 (· + pr.2)) fv

/-- The per-county mode resolution of `processElectionData` (source
562-586): prefer `TOTAL VOTES`, then `TOTAL`, else sum the modes kept by
the filter (whose second disjunct is satisfied in that branch). -/
def resolveModes (modes : AssocL (AssocL Int)) : AssocL Int :=
  if hasKeyA modes "TOTAL VOTES" then
    copyFold [] ((lookupA modes "TOTAL VOTES").getD [])
  else if hasKeyA modes "TOTAL" then
    copyFold [] ((lookupA modes "TOTAL").getD [])
  else
    let modesToSum := (keysA modes).filter (fun mode =>
      !(excludedModes.contains mode) ||
      (!(hasKeyA modes "TOTAL VOTES") && !(hasKeyA modes "TOTAL")))
    modesToSum.foldl (fun fv mode => sumFold fv ((lookupA modes mode).getD [])) []

/-- `finalVotes` converted to `candidateArray` (source 589-598). -/
def toCandidates (fv : AssocL Int) (name : String) : List Candidate :=
  fv.map (fun pr => ⟨pr.1, pr.1, pr.2, name, "PROCESSED"⟩)

/-! ### Second pass: merge into `this.electionData` (source 552-603) -/

/-- `this.electionData`: year to state to county to candidate array. -/
abbrev ElecData := AssocL (AssocL (AssocL (List Candidate)))

/-- The county store for one state within `this.electionData`. -/
def mergeState (sm : AssocL (List Candidate)) (counties : AssocL CountyAcc) :
    AssocL (List Candidate) :=
  counties.foldl (fun sm cEntry =>
    setA sm cEntry.1 (toCandidates (resolveModes cEntry.2.modes) cEntry.2.name)) sm

/-- One year of the second pass. -/
def mergeYear (ym : AssocL (AssocL (List Candidate)))
    (yd : AssocL (AssocL CountyAcc)) : AssocL (AssocL (List Candidate)) :=
  yd.foldl (fun ym sEntry => modifyA ym sEntry.1 [] (fun sm => mergeState sm sEntry.2)) ym

/-- The second pass of `processElectionData`: ensure the nested maps exist
and set each county's resolved candidate array. -/
def mergeRaw (raw : RawData) (elec : ElecData) : ElecData :=
  raw.foldl (fun elec yEntry =>
    modifyA elec yEntry.1 [] (fun ym => mergeYear ym yEntry.2)) elec

/-! ### `calculateResults` (source 620-694) -/

/-- Accumulate a candidate array into a running votes map
(`votes.set(party, (votes.get(party) || 0) + candidate.votes)`). -/
def accumInto (votes : AssocL Int) (cands : List Candidate) : AssocL Int :=
  cands.foldl (fun votes c => modifyA votes c.party 0 (· + c.votes)) votes

/-- The county-name fold: the last candidate with a nonempty `countyName`
wins, defaulting to `'Unknown County'` (source 634, 641-643). -/
def nameOf (cands : List Candidate) : String :=
  cands.foldl (fun nm c => if ¬ c.countyName = "" then c.countyName else nm)
    "Unknown County"

/-- The `CountyResult` object built for one county (source 661-667). -/
def mkCountyRes (stateName : String) (cands : List Candidate) : CountyRes :=
  let countyVotes := accumInto [] cands
  ⟨determineWinner countyVotes, countyVotes, stateName, nameOf cands, cands⟩

/-- The per-state loop of `calculateResults`: accumulate `stateVotes`
across counties and store each county's result under its storage key. -/
def calcState (stateName : String) (counties : AssocL (List Candidate))
    (crY : AssocL CountyRes) : AssocL Int × AssocL CountyRes :=
  counties.foldl (fun p cEntry =>
    (accumInto p.1 cEntry.2,
     setA p.2 (storageKeyOf stateName cEntry.1) (mkCountyRes stateName cEntry.2)))
    ([], crY)

/-- One year of `calculateResults`: fold the states, updating the year's
state-result and county-result maps in tandem. -/
def calcYear (yd : AssocL (AssocL (List Candidate)))
    (srY : AssocL StateRes) (crY : AssocL CountyRes) :
    AssocL StateRes × AssocL CountyRes :=
  yd.foldl (fun p sEntry =>
    let q := calcState sEntry.1 sEntry.2 p.2
    (setA p.1 sEntry.1 ⟨determineWinner q.1, q.1⟩, q.2)) (srY, crY)

/-- `calculateResults`: recompute state and county results for every year
held in `this.electionData`, writing over the existing stores. -/
def calculateResults (elec : ElecData)
    (sr : AssocL (AssocL StateRes)) (cr : AssocL (AssocL CountyRes)) :
    AssocL (AssocL StateRes) × AssocL (AssocL CountyRes) :=
  elec.foldl (fun p yEntry =>
    let q := calcYear yEntry.2 ((lookupA p.1 yEntry.1).getD [])
      ((lookupA p.2 yEntry.1).getD [])
    (setA p.1 yEntry.1 q.1, setA p.2 yEntry.1 q.2)) (sr, cr)

/-! ### The Result Store and the two processing routines -/

/-- The mutable result stores owned by the `ElectionMap` instance. -/
structure Store where
  elec : ElecData
  sr : AssocL (AssocL StateRes)
  cr : AssocL (AssocL CountyRes)

def emptyStore : Store := ⟨[], [], []⟩

/-- `processElectionData(csvData)` (source 509-606): aggregate the rows by
mode, merge into `this.electionData` and recompute all results. -/
def processElectionData (rows : List Row) (σ : Store) : Store :=
  let raw := buildRawData rows
  let elec := mergeRaw raw σ.elec
  let p := calculateResults elec σ.sr σ.cr
  ⟨elec, p.1, p.2⟩

/-- The per-state finalization of `processStateElectionData` (source
421-507): like `calculateResults` but only for the target state, writing
county results (no state results). -/
def processStateRawData (raw : RawData) (targetState : String) (σ : Store) : Store :=
  raw.foldl (fun σ yEntry =>
    let σ' : Store :=
      { σ with elec := modifyA σ.elec yEntry.1 [] id, cr := modifyA σ.cr yEntry.1 [] id }
    yEntry.2.foldl (fun σ sEntry =>
      if ¬ sEntry.1 = targetState then σ else
      let counties := (sEntry.2).map (fun cEntry =>
        (cEntry.1, toCandidates (resolveModes cEntry.2.modes) cEntry.2.name))
      { σ with
        elec := modifyA σ.elec yEntry.1 [] (fun ym =>
          modifyA ym sEntry.1 [] (fun sm =>
            counties.foldl (fun sm cEntry => setA sm cEntry.1 cEntry.2) sm)),
        cr := modifyA σ.cr yEntry.1 [] (fun crY =>
          counties.foldl (fun crY cEntry =>
            setA crY (storageKeyOf sEntry.1 cEntry.1) (mkCountyRes sEntry.1 cEntry.2))
            crY) }) σ') σ

/-- `processStateElectionData(csvData, year, state)` (source 375-419):
same row aggregation, then state-scoped finalization. -/
def processStateElectionData (rows : List Row) (targetState : String) (σ : Store) : Store :=
  processStateRawData (buildRawData rows) targetState σ

/-! ### Lazy Scheduler (source 332-373) -/

/-- The scheduler-visible application state. `aggCalls` counts invocations
of the aggregation routines (the call counter of spec section 8). -/
structure App where
  store : Store
  processedYears : List String
  processedStates : List String
  rawCsv : Option (List Row)
  aggCalls : Nat

/-- `processYearData(year)` (source 332-348): a no-op when the year is in
`this.processedYears` or the CSV is unloaded; otherwise filter the rows to
the year, aggregate them once and mark the year processed. -/
def processYearData (a : App) (year : String) : App :=
  if year ∈ a.processedYears ∨ a.rawCsv = none then a else
  match a.rawCsv with
  | none => a
  | some csv =>
      { a with
        store := processElectionData (csv.filter (fun d => d.year = year)) a.store,
        processedYears := a.processedYears ++ [year],
        aggCalls := a.aggCalls + 1 }

/-- `processStateCountyData(year, stateName)` (source 350-373): keyed by
the concatenated cache key; a no-op when the key is already present. -/
def processStateCountyData (a : App) (year stateName : String) : App :=
  let cacheKey := year ++ "-" ++ stateName
  if cacheKey ∈ a.processedStates then a else
  match a.rawCsv with
  | none => a
  | some csv =>
      { a with
        store := processStateElectionData
          (csv.filter (fun d => d.year = year ∧ d.state = stateName)) stateName a.store,
        processedStates := a.processedStates ++ [cacheKey],
        aggCalls := a.aggCalls + 1 }

/-! ### Geography Key Reconciler (source 1003-1050) -/

/-- `correctedTopoId` (source 1011-1015): the Georgia correction applies
when the table has an entry (JS truthiness of the lookup). -/
def fcfCorrected (topoId stateName : String) : String :=
  if stateName = "GEORGIA" ∧ (georgiaFipsMapping topoId).isSome
  then (georgiaFipsMapping topoId).getD topoId
  else topoId

/-- The candidate-key list of `findCountyFips` (source 1017-1023). -/
def fcfFormats (topoId stateName : String) : List String :=
  [fcfCorrected topoId stateName, topoId, stripZeros (fcfCorrected topoId stateName),
   dropStr (fcfCorrected topoId stateName) 2,
   stripZeros (dropStr (fcfCorrected topoId stateName) 2)]

/-- `findCountyFips(topoId, stateName)` against one year's county-result
store (source 1026-1032): first candidate key bound to a result whose
recorded state matches wins. -/
def findCountyFips (store : AssocL CountyRes) (topoId stateName : String) :
    Option (String × CountyRes) :=
  (fcfFormats topoId stateName).findSome? (fun format =>
    match lookupA store format with
    | some r => if r.state = stateName then some (format, r) else none
    | none => none)

/-! ### Accumulation characterization -/

/-- Vote lookup with the JS `(m.get(p) || 0)` default. -/
def getVA (m : AssocL Int) (p : String) : Int := (lookupA m p).getD 0

/-- The accumulated count held in
`rawData[y][s][c].modes[mo][p]` (0 when any level is absent). -/
def bucketVal (m : RawData) (y s c mo p : String) : Int :=
  getVA ((lookupA ((lookupA ((lookupA ((lookupA m y).getD []) s).getD [] : AssocL CountyAcc)
    c).getD ⟨[], ""⟩).modes mo).getD []) p

theorem getVA_modifyA_add (pm : AssocL Int) (q p : String) (v : Int) :
    getVA (modifyA pm q 0 (· + v)) p = getVA pm p + (if q = p then v else 0) := by
  unfold getVA
  rw [lookupA_modifyA]
  by_cases hq : q = p
  · subst hq
    simp
  · simp [hq]

/-- One aggregation step adds the row's votes to exactly its
`(year, state, county, mode, party)` bucket and touches no other. -/
theorem modes_getD_default (o : Option CountyAcc) (n : String) :
    (o.getD ⟨[], n⟩).modes = (o.getD ⟨[], ""⟩).modes := by
  cases o <;> rfl

theorem buildStep_bucket (m : RawData) (d : Row) (y s c mo p : String) :
    bucketVal (buildStep m d) y s c mo p = bucketVal m y s c mo p +
      (if dropRow d = false ∧ d.year = y ∧ d.state = s ∧ countyKey d = c ∧
          modeOf d = mo ∧ normalizeParty d.party = p
       then votesOf d else 0) := by
  by_cases hdrop : dropRow d
  · simp [buildStep, hdrop]
  · unfold buildStep
    rw [if_neg hdrop]
    unfold bucketVal
    by_cases hy : d.year = y
    · subst hy
      rw [lookupA_modifyA, if_pos rfl]
      simp only [Option.getD_some]
      by_cases hs : d.state = s
      · subst hs
        rw [lookupA_modifyA, if_pos rfl]
        simp only [Option.getD_some]
        by_cases hc : countyKey d = c
        · subst hc
          rw [lookupA_modifyA, if_pos rfl]
          simp only [Option.getD_some]
          by_cases hmo : modeOf d = mo
          · subst hmo
            rw [lookupA_modifyA, if_pos rfl]
            simp only [Option.getD_some]
            rw [getVA_modifyA_add]
            by_cases hp : normalizeParty d.party = p
            · simp [hdrop, hp, modes_getD_default]
            · simp [hp, modes_getD_default]
          · rw [lookupA_modifyA, if_neg hmo]
            simp [hmo, modes_getD_default]
        · rw [lookupA_modifyA, if_neg hc]
          simp [hc]
      · rw [lookupA_modifyA, if_neg hs]
        simp [hs]
    · rw [lookupA_modifyA, if_neg hy]
      simp [hy]

/-- Total votes contributed by a candidate array to one party. -/
def sumVotes (cands : List Candidate) (p : String) : Int :=
  ((cands.filter (fun c => c.party = p)).map Candidate.votes).sum

theorem getVA_accumInto (cands : List Candidate) : ∀ (votes : AssocL Int) (p : String),
    getVA (accumInto votes cands) p = getVA votes p + sumVotes cands p := by
  induction cands with
  | nil => intro votes p; simp [accumInto, sumVotes]
  | cons c tl ih =>
      intro votes p
      have hstep : accumInto votes (c :: tl) =
          accumInto (modifyA votes c.party 0 (· + c.votes)) tl := rfl
      rw [hstep, ih, getVA_modifyA_add]
      by_cases hp : c.party = p
      · simp only [sumVotes, hp, List.filter_cons, if_pos rfl, List.map_cons, List.sum_cons,
          decide_eq_true_eq, if_true]
        ring
      · simp only [sumVotes, hp, List.filter_cons, List.map_cons, decide_eq_true_eq, if_false]
        ring

/-! ### `calculateResults` decomposition -/

/-- The `stateVotes` map accumulated across a state's counties. -/
def stateVotesOf (counties : AssocL (List Candidate)) : AssocL Int :=
  counties.foldl (fun sv cEntry => accumInto sv cEntry.2) []

/-- The `StateResult` object built for one state (source 678-681). -/
def mkStateRes (counties : AssocL (List Candidate)) : StateRes :=
  ⟨determineWinner (stateVotesOf counties), stateVotesOf counties⟩

/-- The county-result entries produced for one state, in county order. -/
def countyBlock (stateName : String) (counties : AssocL (List Candidate)) : AssocL CountyRes :=
  counties.map (fun cEntry =>
    (storageKeyOf stateName cEntry.1, mkCountyRes stateName cEntry.2))

/-- All storage keys a year's data produces, across its states. -/
def allStorageKeys (yd : AssocL (AssocL (List Candidate))) : List String :=
  yd.flatMap (fun sEntry => keysA (countyBlock sEntry.1 sEntry.2))

theorem calcState_aux (stateName : String) (counties : AssocL (List Candidate)) :
    ∀ (sv0 : AssocL Int) (cr0 : AssocL CountyRes),
    (keysA (countyBlock stateName counties)).Nodup →
    (∀ k ∈ keysA (countyBlock stateName counties), k ∉ keysA cr0) →
    counties.foldl (fun p cEntry =>
      (accumInto p.1 cEntry.2,
       setA p.2 (storageKeyOf stateName cEntry.1) (mkCountyRes stateName cEntry.2)))
      (sv0, cr0)
    = (counties.foldl (fun sv cEntry => accumInto sv cEntry.2) sv0,
       cr0 ++ countyBlock stateName counties) := by
  induction counties with
  | nil => intro sv0 cr0 _ _; simp [countyBlock]
  | cons hd tl ih =>
      intro sv0 cr0 hnd hfresh
      obtain ⟨c, cands⟩ := hd
      have hbcons : countyBlock stateName ((c, cands) :: tl) =
          (storageKeyOf stateName c, mkCountyRes stateName cands) ::
            countyBlock stateName tl := rfl
      rw [hbcons] at hnd hfresh
      simp only [keysA, List.map, List.nodup_cons] at hnd
      have hkey : storageKeyOf stateName c ∉ keysA cr0 :=
        hfresh _ (by simp [keysA])
      have hfresh2 : ∀ k ∈ keysA (countyBlock stateName tl), k ∉ keysA cr0 := by
        intro k hk
        refine hfresh k ?_
        simp only [keysA, List.map]
        exact List.mem_cons_of_mem _ (by simpa [keysA] using hk)
      have hset : setA cr0 (storageKeyOf stateName c) (mkCountyRes stateName cands) =
          cr0 ++ [(storageKeyOf stateName c, mkCountyRes stateName cands)] :=
        setA_append_of_not_mem _ _ _ hkey
      simp only [List.foldl_cons]
      rw [hset, ih (accumInto sv0 cands)
        (cr0 ++ [(storageKeyOf stateName c, mkCountyRes stateName cands)])
        (by simpa [keysA] using hnd.2)
        ?fresh]
      · rw [hbcons, List.append_assoc]
        rfl
      case fresh =>
        intro k hk
        simp only [keysA, List.map_append, List.mem_append, List.map, not_or,
          List.mem_singleton]
        refine ⟨hfresh2 k hk, ?_⟩
        intro hc
        subst hc
        exact hnd.1 (by simpa [keysA] using hk)

theorem calcState_eq (stateName : String) (counties : AssocL (List Candidate))
    (crY : AssocL CountyRes)
    (hnd : (keysA (countyBlock stateName counties)).Nodup)
    (hfresh : ∀ k ∈ keysA (countyBlock stateName counties), k ∉ keysA crY) :
    calcState stateName counties crY =
      (stateVotesOf counties, crY ++ countyBlock stateName counties) :=
  calcState_aux stateName counties [] crY hnd hfresh

/-- One year of `calculateResults`, decomposed: fresh-keyed state and
county results are appended in order. -/
theorem calcYear_eq (yd : AssocL (AssocL (List Candidate))) :
    ∀ (srY0 : AssocL StateRes) (crY0 : AssocL CountyRes),
    (keysA yd).Nodup →
    (∀ k ∈ keysA yd, k ∉ keysA srY0) →
    (allStorageKeys yd).Nodup →
    (∀ k ∈ allStorageKeys yd, k ∉ keysA crY0) →
    calcYear yd srY0 crY0 =
      (srY0 ++ yd.map (fun sEntry => (sEntry.1, mkStateRes sEntry.2)),
       crY0 ++ yd.flatMap (fun sEntry => countyBlock sEntry.1 sEntry.2)) := by
  induction yd with
  | nil => intro srY0 crY0 _ _ _ _; simp [calcYear]
  | cons hd tl ih =>
      intro srY0 crY0 hndS hfreshS hndK hfreshK
      obtain ⟨st, cs⟩ := hd
      simp only [keysA, List.map, List.nodup_cons] at hndS
      have hsplit : allStorageKeys ((st, cs) :: tl) =
          keysA (countyBlock st cs) ++ allStorageKeys tl := rfl
      rw [hsplit] at hndK hfreshK
      have hndHd : (keysA (countyBlock st cs)).Nodup :=
        (List.nodup_append.mp hndK).1
      have hndTl : (allStorageKeys tl).Nodup :=
        (List.nodup_append.mp hndK).2.1
      have hdisjK : ∀ k ∈ keysA (countyBlock st cs), k ∉ allStorageKeys tl := by
        intro k hk
        exact (List.nodup_append.mp hndK).2.2 hk
      have hcs : calcState st cs crY0 = (stateVotesOf cs, crY0 ++ countyBlock st cs) :=
        calcState_eq st cs crY0 hndHd
          (fun k hk => hfreshK k (List.mem_append.mpr (Or.inl hk)))
      have hstep : calcYear ((st, cs) :: tl) srY0 crY0 =
          calcYear tl (setA srY0 st (mkStateRes cs)) (crY0 ++ countyBlock st cs) := by
        unfold calcYear
        simp only [List.foldl_cons, hcs]
        rfl
      have hsetS : setA srY0 st (mkStateRes cs) = srY0 ++ [(st, mkStateRes cs)] :=
        setA_append_of_not_mem _ _ _ (hfreshS st (by simp [keysA]))
      rw [hstep, hsetS, ih (srY0 ++ [(st, mkStateRes cs)]) (crY0 ++ countyBlock st cs)
        (by simpa [keysA] using hndS.2) ?freshS hndTl ?freshK]
      · simp [List.append_assoc]
      case freshS =>
        intro k hk
        have hkmem : k ∈ keysA ((st, cs) :: tl) := by
          simp only [keysA, List.map]
          exact List.mem_cons_of_mem _ (by simpa [keysA] using hk)
        simp only [keysA, List.map_append, List.mem_append, List.map, not_or,
          List.mem_singleton]
        refine ⟨hfreshS k hkmem, ?_⟩
        intro hc
        subst hc
        exact hndS.1 (by simpa [keysA] using hk)
      case freshK =>
        intro k hk
        simp only [keysA, List.map_append, List.mem_append, not_or]
        constructor
        · exact hfreshK k (List.mem_append.mpr (Or.inr hk))
        · intro hc
          exact hdisjK k (by simpa [keysA] using hc) hk

/-! ### County-to-state vote-sum lemmas -/

theorem lookupA_map_entry {α β : Type} (l : List (String × α)) (g : String × α → β) :
    ∀ (st : String) (cs : α), (st, cs) ∈ l → (keysA l).Nodup →
    lookupA (l.map (fun e => (e.1, g e))) st = some (g (st, cs)) := by
  induction l with
  | nil => intro st cs hmem _; simp at hmem
  | cons hd tl ih =>
      intro st cs hmem hnd
      obtain ⟨k, v⟩ := hd
      simp only [keysA, List.map, List.nodup_cons] at hnd
      rcases List.mem_cons.mp hmem with he | htl
      · have h1 : st = k := congrArg Prod.fst he
        subst h1
        have h2 : cs = v := congrArg Prod.snd he
        subst h2
        simp [List.map, lookupA]
      · have hne : ¬ k = st := by
          intro hc
          subst hc
          exact hnd.1 (by simpa [keysA] using List.mem_map_of_mem Prod.fst htl)
        simp only [List.map, lookupA, hne, if_false]
        exact ih st cs htl (by simpa [keysA] using hnd.2)

theorem countyBlock_state (stateName : String) (counties : AssocL (List Candidate)) :
    ∀ kv ∈ countyBlock stateName counties, kv.2.state = stateName := by
  intro kv hkv
  obtain ⟨c, hc, he⟩ := List.mem_map.mp hkv
  rw [← he]
  rfl

theorem filter_countyBlock (stateName st : String) (counties : AssocL (List Candidate)) :
    (countyBlock stateName counties).filter (fun kv => kv.2.state = st) =
      if stateName = st then countyBlock stateName counties else [] := by
  by_cases h : stateName = st
  · subst h
    rw [if_pos rfl]
    apply List.filter_eq_self.mpr
    intro kv hkv
    simp [countyBlock_state stateName counties kv hkv]
  · rw [if_neg h]
    apply List.filter_eq_nil_iff.mpr
    intro kv hkv
    simp [countyBlock_state stateName counties kv hkv, h]

theorem getVA_stateVotesOf_aux (counties : AssocL (List Candidate)) :
    ∀ (sv : AssocL Int) (p : String),
    getVA (counties.foldl (fun sv cEntry => accumInto sv cEntry.2) sv) p =
      getVA sv p + (counties.map (fun cEntry => sumVotes cEntry.2 p)).sum := by
  induction counties with
  | nil => intro sv p; simp
  | cons hd tl ih =>
      intro sv p
      simp only [List.foldl_cons, List.map, List.sum_cons]
      rw [ih, getVA_accumInto]
      ring

theorem getVA_stateVotesOf (counties : AssocL (List Candidate)) (p : String) :
    getVA (stateVotesOf counties) p =
      (counties.map (fun cEntry => sumVotes cEntry.2 p)).sum := by
  have := getVA_stateVotesOf_aux counties [] p
  simpa [stateVotesOf, getVA] using this

theorem sum_countyBlock (stateName : String) (counties : AssocL (List Candidate))
    (p : String) :
    ((countyBlock stateName counties).map (fun kv => getVA kv.2.votes p)).sum =
      (counties.map (fun cEntry => sumVotes cEntry.2 p)).sum := by
  unfold countyBlock
  rw [List.map_map]
  congr 1
  apply List.map_congr_left
  intro cEntry _
  show getVA (accumInto [] cEntry.2) p = sumVotes cEntry.2 p
  rw [getVA_accumInto]
  simp [getVA]

/-! ### Idempotence of the aggregation routine -/

theorem foldl_id {α β : Type} (l : List β) (f : α → β → α) (a : α)
    (h : ∀ b ∈ l, f a b = a) : l.foldl f a = a := by
  induction l with
  | nil => rfl
  | cons hd tl ih =>
      rw [List.foldl_cons, h hd (List.mem_cons_self _ _)]
      exact ih (fun b hb => h b (List.mem_cons_of_mem _ hb))

theorem lookup_mergeState_not_mem (counties : AssocL CountyAcc) :
    ∀ (sm : AssocL (List Candidate)) (c : String), c ∉ keysA counties →
    lookupA (mergeState sm counties) c = lookupA sm c := by
  induction counties with
  | nil => intro sm c _; rfl
  | cons hd tl ih =>
      intro sm c hc
      simp only [keysA, List.map, List.mem_cons, not_or] at hc
      show lookupA (mergeState (setA sm hd.1 _) tl) c = _
      rw [ih _ c (by simpa [keysA] using hc.2), lookupA_setA, if_neg (Ne.symm hc.1)]

theorem lookup_mergeState_mem (counties : AssocL CountyAcc) :
    ∀ (sm : AssocL (List Candidate)) (c : String) (acc : CountyAcc),
    (c, acc) ∈ counties → (keysA counties).Nodup →
    lookupA (mergeState sm counties) c =
      some (toCandidates (resolveModes acc.modes) acc.name) := by
  induction counties with
  | nil => intro sm c acc hmem _; simp at hmem
  | cons hd tl ih =>
      intro sm c acc hmem hnd
      simp only [keysA, List.map, List.nodup_cons] at hnd
      rcases List.mem_cons.mp hmem with he | htl
      · have h1 : c = hd.1 := congrArg Prod.fst he
        have h2 : acc = hd.2 := congrArg Prod.snd he
        subst h1; subst h2
        show lookupA (mergeState (setA sm hd.1
            (toCandidates (resolveModes hd.2.modes) hd.2.name)) tl) hd.1 = _
        rw [lookup_mergeState_not_mem tl _ hd.1 (by simpa [keysA] using hnd.1),
          lookupA_setA, if_pos rfl]
      · show lookupA (mergeState (setA sm hd.1 _) tl) c = _
        exact ih _ c acc htl (by simpa [keysA] using hnd.2)

theorem idem_mergeState (counties : AssocL CountyAcc)
    (sm : AssocL (List Candidate)) (hnd : (keysA counties).Nodup) :
    mergeState (mergeState sm counties) counties = mergeState sm counties := by
  apply foldl_id
  intro cEntry hc
  exact setA_self _ _ _ (lookup_mergeState_mem counties sm cEntry.1 cEntry.2 hc hnd)

theorem lookup_mergeYear_not_mem (yd : AssocL (AssocL CountyAcc)) :
    ∀ (ym : AssocL (AssocL (List Candidate))) (st : String), st ∉ keysA yd →
    lookupA (mergeYear ym yd) st = lookupA ym st := by
  induction yd with
  | nil => intro ym st _; rfl
  | cons hd tl ih =>
      intro ym st hst
      simp only [keysA, List.map, List.mem_cons, not_or] at hst
      show lookupA (mergeYear (modifyA ym hd.1 [] _) tl) st = _
      rw [ih _ st (by simpa [keysA] using hst.2), lookupA_modifyA, if_neg (Ne.symm hst.1)]

theorem lookup_mergeYear_mem (yd : AssocL (AssocL CountyAcc)) :
    ∀ (ym : AssocL (AssocL (List Candidate))) (st : String) (cnt : AssocL CountyAcc),
    (st, cnt) ∈ yd → (keysA yd).Nodup →
    lookupA (mergeYear ym yd) st = some (mergeState ((lookupA ym st).getD []) cnt) := by
  induction yd with
  | nil => intro ym st cnt hmem _; simp at hmem
  | cons hd tl ih =>
      intro ym st cnt hmem hnd
      simp only [keysA, List.map, List.nodup_cons] at hnd
      rcases List.mem_cons.mp hmem with he | htl
      · have h1 : st = hd.1 := congrArg Prod.fst he
        have h2 : cnt = hd.2 := congrArg Prod.snd he
        subst h1; subst h2
        show lookupA (mergeYear (modifyA ym hd.1 [] _) tl) hd.1 = _
        rw [lookup_mergeYear_not_mem tl _ hd.1 (by simpa [keysA] using hnd.1),
          lookupA_modifyA, if_pos rfl]
      · have hne : st ≠ hd.1 := by
          intro hc
          subst hc
          exact hnd.1 (by simpa [keysA] using List.mem_map_of_mem Prod.fst htl)
        show lookupA (mergeYear (modifyA ym hd.1 [] _) tl) st = _
        rw [ih _ st cnt htl (by simpa [keysA] using hnd.2), lookupA_modifyA,
          if_neg (Ne.symm hne)]

theorem idem_mergeYear (yd : AssocL (AssocL CountyAcc))
    (ym : AssocL (AssocL (List Candidate)))
    (hnd : (keysA yd).Nodup) (hinner : ∀ e ∈ yd, (keysA e.2).Nodup) :
    mergeYear (mergeYear ym yd) yd = mergeYear ym yd := by
  apply foldl_id
  intro sEntry hs
  exact modifyA_self _ _ _ _ _
    (lookup_mergeYear_mem yd ym sEntry.1 sEntry.2 hs hnd)
    (idem_mergeState sEntry.2 _ (hinner sEntry hs))

/-- Well-formedness of the raw accumulation: no duplicate keys at the
year, state, or county level (true of everything `buildRawData` builds). -/
def WFRaw (m : RawData) : Prop :=
  (keysA m).Nodup ∧ ∀ e ∈ m, (keysA e.2).Nodup ∧ ∀ e2 ∈ e.2, (keysA e2.2).Nodup

theorem lookup_mergeRaw_not_mem (raw : RawData) :
    ∀ (elec : ElecData) (y : String), y ∉ keysA raw →
    lookupA (mergeRaw raw elec) y = lookupA elec y := by
  induction raw with
  | nil => intro elec y _; rfl
  | cons hd tl ih =>
      intro elec y hy
      simp only [keysA, List.map, List.mem_cons, not_or] at hy
      show lookupA (mergeRaw tl (modifyA elec hd.1 [] _)) y = _
      rw [ih _ y (by simpa [keysA] using hy.2), lookupA_modifyA, if_neg (Ne.symm hy.1)]

theorem lookup_mergeRaw_mem (raw : RawData) :
    ∀ (elec : ElecData) (y : String) (yd : AssocL (AssocL CountyAcc)),
    (y, yd) ∈ raw → (keysA raw).Nodup →
    lookupA (mergeRaw raw elec) y = some (mergeYear ((lookupA elec y).getD []) yd) := by
  induction raw with
  | nil => intro elec y yd hmem _; simp at hmem
  | cons hd tl ih =>
      intro elec y yd hmem hnd
      simp only [keysA, List.map, List.nodup_cons] at hnd
      rcases List.mem_cons.mp hmem with he | htl
      · have h1 : y = hd.1 := congrArg Prod.fst he
        have h2 : yd = hd.2 := congrArg Prod.snd he
        subst h1; subst h2
        show lookupA (mergeRaw tl (modifyA elec hd.1 [] _)) hd.1 = _
        rw [lookup_mergeRaw_not_mem tl _ hd.1 (by simpa [keysA] using hnd.1),
          lookupA_modifyA, if_pos rfl]
      · have hne : y ≠ hd.1 := by
          intro hc
          subst hc
          exact hnd.1 (by simpa [keysA] using List.mem_map_of_mem Prod.fst htl)
        show lookupA (mergeRaw tl (modifyA elec hd.1 [] _)) y = _
        rw [ih _ y yd htl (by simpa [keysA] using hnd.2), lookupA_modifyA,
          if_neg (Ne.symm hne)]

theorem idem_mergeRaw (raw : RawData) (elec : ElecData) (hwf : WFRaw raw) :
    mergeRaw raw (mergeRaw raw elec) = mergeRaw raw elec := by
  apply foldl_id
  intro yEntry hy
  exact modifyA_self _ _ _ _ _
    (lookup_mergeRaw_mem raw elec yEntry.1 yEntry.2 hy hwf.1)
    (idem_mergeYear yEntry.2 _ ((hwf.2 yEntry hy).1) ((hwf.2 yEntry hy).2))

theorem wf_get_year (m : RawData) (y : String) (h : WFRaw m) :
    (keysA ((lookupA m y).getD [])).Nodup ∧
    ∀ e2 ∈ (lookupA m y).getD [], (keysA e2.2).Nodup := by
  cases hv : lookupA m y with
  | none => simp [keysA]
  | some v =>
      have := h.2 (y, v) (lookupA_mem m y v hv)
      simpa using this

theorem wf_buildStep (m : RawData) (d : Row) (h : WFRaw m) : WFRaw (buildStep m d) := by
  unfold buildStep
  by_cases hdrop : dropRow d
  · simpa [hdrop] using h
  · rw [if_neg hdrop]
    refine ⟨nodup_keysA_modifyA _ _ _ _ h.1, ?_⟩
    intro e he
    rcases mem_modifyA _ _ _ _ _ _ he with hin | ⟨_, hval⟩
    · exact h.2 e hin
    · rw [hval]
      obtain ⟨hym1, hym2⟩ := wf_get_year m d.year h
      refine ⟨nodup_keysA_modifyA _ _ _ _ hym1, ?_⟩
      intro e2 he2
      rcases mem_modifyA _ _ _ _ _ _ he2 with hin2 | ⟨_, hval2⟩
      · exact hym2 e2 hin2
      · rw [hval2]
        cases hv : lookupA ((lookupA m d.year).getD []) d.state with
        | none =>
            exact nodup_keysA_modifyA _ _ _ _ (by simp [keysA])
        | some sm =>
            have hsm : (keysA sm).Nodup := by
              simpa using hym2 (d.state, sm) (lookupA_mem _ _ _ hv)
            simp only [Option.getD_some]
            exact nodup_keysA_modifyA _ _ _ _ hsm

theorem wf_buildRawData (rows : List Row) : WFRaw (buildRawData rows) := by
  have : ∀ (m : RawData), WFRaw m → WFRaw (rows.foldl buildStep m) := by
    induction rows with
    | nil => intro m hm; exact hm
    | cons hd tl ih =>
        intro m hm
        exact ih _ (wf_buildStep m hd hm)
  refine this [] ⟨List.nodup_nil, ?_⟩
  intro e he
  simp at he

/-! ### Pointwise behaviour of repeated county-result writes -/

/-- Replay a list of `(key, value)` writes with `Map.set` semantics. -/
def applySets {α : Type} (m : AssocL α) (L : List (String × α)) : AssocL α :=
  L.foldl (fun m kv => setA m kv.1 kv.2) m

/-- The last value written to a key by a list of writes, if any. -/
def lastVal {α : Type} : List (String × α) → String → Option α
  | [], _ => none
  | kv :: L, k =>
      match lastVal L k with
      | some v => some v
      | none => if kv.1 = k then some kv.2 else none

theorem lookup_applySets {α : Type} (L : List (String × α)) :
    ∀ (m : AssocL α) (k : String),
    lookupA (applySets m L) k =
      match lastVal L k with
      | some v => some v
      | none => lookupA m k := by
  induction L with
  | nil => intro m k; rfl
  | cons kv L ih =>
      intro m k
      show lookupA (applySets (setA m kv.1 kv.2) L) k = _
      rw [ih]
      cases hlv : lastVal L k with
      | some v => simp [lastVal, hlv]
      | none =>
          rw [lookupA_setA]
          by_cases hk : kv.1 = k
          · simp [lastVal, hlv, hk]
          · simp [lastVal, hlv, hk]

theorem lookup_applySets_twice {α : Type} (L : List (String × α)) (m : AssocL α)
    (k : String) :
    lookupA (applySets (applySets m L) L) k = lookupA (applySets m L) k := by
  rw [lookup_applySets, lookup_applySets]
  cases lastVal L k <;> rfl

theorem applySets_append {α : Type} (m : AssocL α) (L1 L2 : List (String × α)) :
    applySets m (L1 ++ L2) = applySets (applySets m L1) L2 :=
  List.foldl_append ..

/-- The county-result writes of one year, flattened across its states. -/
def yearWrites (yd : AssocL (AssocL (List Candidate))) : AssocL CountyRes :=
  yd.flatMap (fun sEntry => countyBlock sEntry.1 sEntry.2)

theorem calcState_snd (st : String) (cs : AssocL (List Candidate)) :
    ∀ (sv0 : AssocL Int) (cr0 : AssocL CountyRes),
    (cs.foldl (fun p cEntry =>
      (accumInto p.1 cEntry.2,
       setA p.2 (storageKeyOf st cEntry.1) (mkCountyRes st cEntry.2))) (sv0, cr0)).2 =
      applySets cr0 (countyBlock st cs) := by
  induction cs with
  | nil => intro sv0 cr0; rfl
  | cons hd tl ih =>
      intro sv0 cr0
      exact ih (accumInto sv0 hd.2) (setA cr0 (storageKeyOf st hd.1) (mkCountyRes st hd.2))

theorem calcYear_snd (yd : AssocL (AssocL (List Candidate))) :
    ∀ (srY : AssocL StateRes) (crY : AssocL CountyRes),
    (calcYear yd srY crY).2 = applySets crY (yearWrites yd) := by
  induction yd with
  | nil => intro srY crY; rfl
  | cons hd tl ih =>
      intro srY crY
      have hstep : calcYear (hd :: tl) srY crY =
          calcYear tl (setA srY hd.1 ⟨determineWinner (calcState hd.1 hd.2 crY).1,
            (calcState hd.1 hd.2 crY).1⟩) (calcState hd.1 hd.2 crY).2 := rfl
      rw [hstep, ih]
      have h2 : (calcState hd.1 hd.2 crY).2 = applySets crY (countyBlock hd.1 hd.2) :=
        calcState_snd hd.1 hd.2 [] crY
      rw [h2]
      show _ = applySets crY (countyBlock hd.1 hd.2 ++ yearWrites tl)
      rw [applySets_append]

/-- The county-result component of one `calculateResults` year step. -/
def crStep (cr : AssocL (AssocL CountyRes)) (yEntry : String × AssocL (AssocL (List Candidate))) :
    AssocL (AssocL CountyRes) :=
  setA cr yEntry.1 (applySets ((lookupA cr yEntry.1).getD []) (yearWrites yEntry.2))

theorem calculateResults_snd (elec : ElecData) :
    ∀ (sr : AssocL (AssocL StateRes)) (cr : AssocL (AssocL CountyRes)),
    (calculateResults elec sr cr).2 = elec.foldl crStep cr := by
  induction elec with
  | nil => intro sr cr; rfl
  | cons hd tl ih =>
      intro sr cr
      show (calculateResults tl _ _).2 = _
      rw [ih]
      show List.foldl crStep (setA cr hd.1
        (calcYear hd.2 ((lookupA sr hd.1).getD []) ((lookupA cr hd.1).getD [])).2) tl = _
      rw [calcYear_snd]
      rfl

theorem lookup_crFold_not_mem (elec : ElecData) :
    ∀ (cr : AssocL (AssocL CountyRes)) (y : String), y ∉ keysA elec →
    lookupA (elec.foldl crStep cr) y = lookupA cr y := by
  induction elec with
  | nil => intro cr y _; rfl
  | cons hd tl ih =>
      intro cr y hy
      simp only [keysA, List.map, List.mem_cons, not_or] at hy
      rw [List.foldl_cons, ih _ y (by simpa [keysA] using hy.2)]
      show lookupA (setA cr hd.1 _) y = _
      rw [lookupA_setA, if_neg (Ne.symm hy.1)]

theorem lookup_crFold_mem (elec : ElecData) :
    ∀ (cr : AssocL (AssocL CountyRes)) (y : String) (yd : AssocL (AssocL (List Candidate))),
    (y, yd) ∈ elec → (keysA elec).Nodup →
    lookupA (elec.foldl crStep cr) y =
      some (applySets ((lookupA cr y).getD []) (yearWrites yd)) := by
  induction elec with
  | nil => intro cr y yd hmem _; simp at hmem
  | cons hd tl ih =>
      intro cr y yd hmem hnd
      simp only [keysA, List.map, List.nodup_cons] at hnd
      rcases List.mem_cons.mp hmem with he | htl
      · have h1 : y = hd.1 := congrArg Prod.fst he
        have h2 : yd = hd.2 := congrArg Prod.snd he
        subst h1; subst h2
        rw [List.foldl_cons, lookup_crFold_not_mem tl _ hd.1 (by simpa [keysA] using hnd.1)]
        show lookupA (setA cr hd.1 _) hd.1 = _
        rw [lookupA_setA, if_pos rfl]
      · have hne : y ≠ hd.1 := by
          intro hc
          subst hc
          exact hnd.1 (by simpa [keysA] using List.mem_map_of_mem Prod.fst htl)
        have hlk : lookupA (crStep cr hd) y = lookupA cr y := by
          unfold crStep
          rw [lookupA_setA, if_neg (Ne.symm hne)]
        rw [List.foldl_cons, ih _ y yd htl (by simpa [keysA] using hnd.2), hlk]

theorem nodup_keys_mergeRaw (raw : RawData) :
    ∀ (elec : ElecData), (keysA elec).Nodup → (keysA (mergeRaw raw elec)).Nodup := by
  induction raw with
  | nil => intro elec h; exact h
  | cons hd tl ih =>
      intro elec h
      exact ih _ (nodup_keysA_modifyA _ _ _ _ h)

/-! ### Characterization of `determineWinner` -/

/-- The running `maxVotes` value of the `determineWinner` loop. -/
def maxFold (l : AssocL Int) (m : Int) : Int := l.foldl (fun a x => max a x.2) m

theorem le_maxFold (l : AssocL Int) (m : Int) : m ≤ maxFold l m := by
  induction l generalizing m with
  | nil => simp [maxFold]
  | cons hd tl ih =>
      calc m ≤ max m hd.2 := le_max_left _ _
        _ ≤ maxFold tl (max m hd.2) := ih _
        _ = maxFold (hd :: tl) m := rfl

theorem mem_le_maxFold (l : AssocL Int) : ∀ (m : Int) (x : String × Int), x ∈ l →
    x.2 ≤ maxFold l m := by
  induction l with
  | nil => intro m x hx; simp at hx
  | cons hd tl ih =>
      intro m x hx
      rcases List.mem_cons.mp hx with h | h
      · subst h
        calc x.2 ≤ max m x.2 := le_max_right _ _
          _ ≤ maxFold tl (max m x.2) := le_maxFold _ _
      · exact ih (max m hd.2) x h

theorem maxFold_attained (l : AssocL Int) : ∀ (m : Int),
    maxFold l m = m ∨ ∃ x ∈ l, maxFold l m = x.2 := by
  induction l with
  | nil => intro m; left; rfl
  | cons hd tl ih =>
      intro m
      have hdef : maxFold (hd :: tl) m = maxFold tl (max m hd.2) := rfl
      rcases ih (max m hd.2) with h | ⟨x, hx, hv⟩
      · rcases max_cases m hd.2 with ⟨he, _⟩ | ⟨he, _⟩
        · left; rw [hdef, h, he]
        · right; exact ⟨hd, List.mem_cons_self _ _, by rw [hdef, h, he]⟩
      · right
        exact ⟨x, List.mem_cons_of_mem _ hx, by rw [hdef, hv]⟩

/-- Full characterization of the `determineWinner` fold: the final pair is
the running maximum together with the first entry attaining it (or the
initial sentinel when nothing exceeds the initial maximum). -/
theorem find_cons_eval {α : Type} (p : α → Bool) (a : α) (l : List α) :
    List.find? p (a :: l) = if p a then some a else List.find? p l := by
  by_cases h : p a
  · rw [List.find?_cons_of_pos _ h, if_pos h]
  · rw [List.find?_cons_of_neg _ (by simpa using h), if_neg h]

theorem dw_fold_eq (l : AssocL Int) : ∀ (m : Int) (w : String),
    l.foldl (fun acc pr => if pr.2 > acc.1 then (pr.2, pr.1) else acc) (m, w) =
      (maxFold l m,
       if maxFold l m ≤ m then w
       else ((l.find? (fun x => x.2 == maxFold l m)).map Prod.fst).getD w) := by
  induction l with
  | nil => intro m w; simp [maxFold]
  | cons hd tl ih =>
      intro m w
      obtain ⟨p, v⟩ := hd
      by_cases hv : v > m
      · have hstep : List.foldl (fun acc pr => if pr.2 > acc.1 then (pr.2, pr.1) else acc)
            (m, w) ((p, v) :: tl) =
            List.foldl (fun acc pr => if pr.2 > acc.1 then (pr.2, pr.1) else acc) (v, p) tl := by
          simp [hv]
        have hM : maxFold ((p, v) :: tl) m = maxFold tl v := by
          have : maxFold ((p, v) :: tl) m = maxFold tl (max m v) := rfl
          rw [this, max_eq_right (le_of_lt hv)]
        have hvM : v ≤ maxFold tl v := le_maxFold _ _
        have hmM : ¬ maxFold tl v ≤ m := not_le.mpr (lt_of_lt_of_le hv hvM)
        rw [hstep, ih v p, hM, if_neg hmM]
        by_cases hle : maxFold tl v ≤ v
        · have heq : maxFold tl v = v := le_antisymm hle hvM
          have hpred : ((p, v).2 == maxFold tl v) = true := by simp [heq]
          rw [if_pos hle, find_cons_eval]
          simp [hpred]
        · have hvne : ¬ v = maxFold tl v := fun h => hle (le_of_eq h.symm)
          have hpred : ((p, v).2 == maxFold tl v) = false := by simpa using hvne
          rw [if_neg hle, find_cons_eval]
          rcases hfind : List.find? (fun x => x.2 == maxFold tl v) tl with _ | r
          · exfalso
            rcases maxFold_attained tl v with he | ⟨x, hx, he⟩
            · exact hle (le_of_eq he)
            · have := List.find?_eq_none.mp hfind x hx
              simp [he] at this
          · rw [hfind]
            simp [hpred]
      · have hle' : v ≤ m := not_lt.mp hv
        have hstep : List.foldl (fun acc pr => if pr.2 > acc.1 then (pr.2, pr.1) else acc)
            (m, w) ((p, v) :: tl) =
            List.foldl (fun acc pr => if pr.2 > acc.1 then (pr.2, pr.1) else acc) (m, w) tl := by
          simp [hv]
        have hM : maxFold ((p, v) :: tl) m = maxFold tl m := by
          have : maxFold ((p, v) :: tl) m = maxFold tl (max m v) := rfl
          rw [this, max_eq_left hle']
        rw [hstep, ih m w, hM]
        by_cases hm : maxFold tl m ≤ m
        · rw [if_pos hm, if_pos hm]
        · have hvne : ¬ v = maxFold tl m := by
            intro h
            exact hm (le_trans (le_of_eq h.symm) hle')
          have hpred : ((p, v).2 == maxFold tl m) = false := by simpa using hvne
          rw [if_neg hm, if_neg hm, find_cons_eval]
          simp [hpred]

/-- Modelled from the claim (spec 4.4): the winner is the party with the
strict maximum vote count, ties broken by the first party attaining the
maximum in a left-to-right scan; an empty or all-zero tally gives
`UNKNOWN`. -/
def winnerClaim (l : AssocL Int) : String :=
  if maxFold l 0 ≤ 0 then "UNKNOWN"
  else ((l.find? (fun x => x.2 == maxFold l 0)).map Prod.fst).getD "UNKNOWN"

theorem determineWinner_eq_winnerClaim (l : AssocL Int) :
    determineWinner l = winnerClaim l := by
  unfold determineWinner winnerClaim
  rw [dw_fold_eq]

theorem maxFold_zero_iff (l : AssocL Int) (h : ∀ x ∈ l, 0 ≤ x.2) :
    maxFold l 0 = 0 ↔ ∀ x ∈ l, x.2 = 0 := by
  constructor
  · intro h0 x hx
    exact le_antisymm (h0 ▸ mem_le_maxFold l 0 x hx) (h x hx)
  · intro hz
    rcases maxFold_attained l 0 with he | ⟨x, hx, he⟩
    · exact he
    · rw [he]; exact hz x hx

/-! ### `resolveModes` against the claim's case analysis -/

theorem copyFold_append (fv src : AssocL Int) (hsrc : (keysA src).Nodup)
    (hdisj : ∀ k ∈ keysA src, k ∉ keysA fv) : copyFold fv src = fv ++ src := by
  induction src generalizing fv with
  | nil => simp [copyFold]
  | cons hd tl ih =>
      obtain ⟨k, v⟩ := hd
      simp only [keysA, List.map, List.nodup_cons] at hsrc
      have hk : k ∉ keysA fv := hdisj k (by simp [keysA])
      have step : setA fv k v = fv ++ [(k, v)] := setA_append_of_not_mem _ _ _ hk
      show copyFold (setA fv k v) tl = _
      rw [step, ih (fv ++ [(k, v)]) (by simpa [keysA] using hsrc.2)]
      · simp
      · intro k' hk'
        simp only [keysA, List.map_append, List.mem_append, List.map] at *
        rcases hk' with hk'
        refine fun hc => ?_
        rcases hc with hc | hc
        · exact hdisj k' (by simp [keysA, List.mem_cons_of_mem, hk']) hc
        · simp at hc
          subst hc
          exact hsrc.1 (by simpa [keysA] using hk')

theorem copyFold_nil (src : AssocL Int) (hsrc : (keysA src).Nodup) :
    copyFold [] src = src := by
  simpa using copyFold_append [] src hsrc (by simp [keysA])

/-- Modelled from the claim (spec 4.2): `TOTAL VOTES` verbatim, else
`TOTAL` verbatim, else sum the remaining modes, excluding the fixed
component set unless neither aggregate mode exists — in which case every
mode, the excluded set included, is summed. -/
def resolveModesClaim (modes : AssocL (AssocL Int)) : AssocL Int :=
  if hasKeyA modes "TOTAL VOTES" then (lookupA modes "TOTAL VOTES").getD []
  else if hasKeyA modes "TOTAL" then (lookupA modes "TOTAL").getD []
  else
    let noAggregate :=
      hasKeyA modes "TOTAL VOTES" = false ∧ hasKeyA modes "TOTAL" = false
    let modesToSum :=
      if noAggregate then keysA modes
      else (keysA modes).filter (fun mode => !(excludedModes.contains mode))
    modesToSum.foldl (fun fv mode => sumFold fv ((lookupA modes mode).getD [])) []

theorem resolveModes_eq_claim (modes : AssocL (AssocL Int))
    (h : ∀ e ∈ modes, (keysA e.2).Nodup) :
    resolveModes modes = resolveModesClaim modes := by
  unfold resolveModes resolveModesClaim
  by_cases h1 : hasKeyA modes "TOTAL VOTES"
  · simp only [h1, if_true]
    obtain ⟨pv, hpv⟩ := Option.isSome_iff_exists.mp h1
    rw [hpv]
    exact copyFold_nil pv (h (_, pv) (lookupA_mem _ _ _ hpv))
  · simp only [h1, if_false]
    by_cases h2 : hasKeyA modes "TOTAL"
    · simp only [h2, if_true]
      obtain ⟨pv, hpv⟩ := Option.isSome_iff_exists.mp h2
      rw [hpv]
      exact copyFold_nil pv (h (_, pv) (lookupA_mem _ _ _ hpv))
    · simp only [h2, if_false]
      have hb1 : hasKeyA modes "TOTAL VOTES" = false := by
        simpa using h1
      have hb2 : hasKeyA modes "TOTAL" = false := by
        simpa using h2
      simp [hb1, hb2]

/-! ### Geography reconciler against the claim's candidate order -/

/-- Modelled from the claim (spec 4.5): try the candidate keys in order and
return the first one bound to a result recorded for the target state. -/
def tryKeys (store : AssocL CountyRes) (stateName : String) :
    List String → Option (String × CountyRes)
  | [] => none
  | k :: rest =>
      match lookupA store k with
      | some r => if r.state = stateName then some (k, r) else tryKeys store stateName rest
      | none => tryKeys store stateName rest

/-- The last three characters of an identifier. -/
def last3 (s : String) : String := dropStr s (lenStr s - 3)

/-- The correction applied by the claim's description: the Georgia table,
then the identity. -/
def claimCorrected (topoId stateName : String) : String :=
  if stateName = "GEORGIA" then (georgiaFipsMapping topoId).getD topoId else topoId

/-- Modelled from the claim (spec 4.5): the candidate keys in the claimed
order — corrected id, original id, corrected id without leading zeros, the
last-3-digit suffix of the corrected id, that suffix without leading
zeros. -/
def claimFormats (topoId stateName : String) : List String :=
  [claimCorrected topoId stateName, topoId, stripZeros (claimCorrected topoId stateName),
   last3 (claimCorrected topoId stateName), stripZeros (last3 (claimCorrected topoId stateName))]

def findCountyFipsClaim (store : AssocL CountyRes) (topoId stateName : String) :
    Option (String × CountyRes) :=
  tryKeys store stateName (claimFormats topoId stateName)

theorem tryKeys_cons (store : AssocL CountyRes) (stateName k : String) (rest : List String) :
    tryKeys store stateName (k :: rest) =
      match lookupA store k with
      | some r => if r.state = stateName then some (k, r) else tryKeys store stateName rest
      | none => tryKeys store stateName rest := rfl

theorem findSome_eq_tryKeys (store : AssocL CountyRes) (stateName : String)
    (l : List String) :
    l.findSome? (fun format =>
      match lookupA store format with
      | some r => if r.state = stateName then some (format, r) else none
      | none => none) = tryKeys store stateName l := by
  induction l with
  | nil => rfl
  | cons k rest ih =>
      rw [List.findSome?_cons, tryKeys_cons]
      cases hk : lookupA store k with
      | none => simpa using ih
      | some r =>
          by_cases hst : r.state = stateName
          · simp [hst]
          · simpa [hst] using ih

theorem corrected_eq (topoId stateName : String) :
    fcfCorrected topoId stateName = claimCorrected topoId stateName := by
  unfold fcfCorrected claimCorrected
  by_cases hg : stateName = "GEORGIA"
  · cases hm : georgiaFipsMapping topoId with
    | none => simp [hg, hm]
    | some b => simp [hg, hm]
  · simp [hg]

theorem lenStr_claimCorrected (topoId : String) (h5 : lenStr topoId = 5)
    (stateName : String) : lenStr (claimCorrected topoId stateName) = 5 := by
  unfold claimCorrected georgiaFipsMapping
  by_cases hg : stateName = "GEORGIA"
  · by_cases ht : topoId = "13211"
    · simp [hg, ht]
      rfl
    · simp [hg, ht, h5]
  · simp [hg, h5]

theorem fcfFormats_eq_claim (topoId stateName : String) (h5 : lenStr topoId = 5) :
    fcfFormats topoId stateName = claimFormats topoId stateName := by
  unfold fcfFormats claimFormats
  rw [corrected_eq]
  have h23 : dropStr (claimCorrected topoId stateName) 2 =
      last3 (claimCorrected topoId stateName) := by
    unfold last3
    rw [lenStr_claimCorrected topoId h5 stateName]
  rw [h23]

theorem tryKeys_sound (store : AssocL CountyRes) (stateName : String) :
    ∀ (l : List String) (k : String) (r : CountyRes),
    tryKeys store stateName l = some (k, r) →
    lookupA store k = some r ∧ r.state = stateName ∧ k ∈ l := by
  intro l
  induction l with
  | nil => intro k r h; simp [tryKeys] at h
  | cons k0 rest ih =>
      intro k r h
      rw [tryKeys_cons] at h
      cases hk : lookupA store k0 with
      | none =>
          simp only [hk] at h
          obtain ⟨h1, h2, h3⟩ := ih k r h
          exact ⟨h1, h2, List.mem_cons_of_mem _ h3⟩
      | some r0 =>
          simp only [hk] at h
          by_cases hst : r0.state = stateName
          · rw [if_pos hst] at h
            obtain ⟨he1, he2⟩ : k0 = k ∧ r0 = r := by
              simpa using h
            subst he1; subst he2
            exact ⟨hk, hst, List.mem_cons_self _ _⟩
          · rw [if_neg hst] at h
            obtain ⟨h1, h2, h3⟩ := ih k r h
            exact ⟨h1, h2, List.mem_cons_of_mem _ h3⟩

theorem tryKeys_none_iff (store : AssocL CountyRes) (stateName : String) :
    ∀ (l : List String),
    tryKeys store stateName l = none ↔
      ∀ k ∈ l, ∀ r, lookupA store k = some r → ¬ r.state = stateName := by
  intro l
  induction l with
  | nil => simp [tryKeys]
  | cons k0 rest ih =>
      rw [tryKeys_cons]
      cases hk : lookupA store k0 with
      | none =>
          simp only []
          rw [ih]
          constructor
          · intro h k hkm r hr
            rcases List.mem_cons.mp hkm with he | ht
            · subst he
              rw [hk] at hr
              exact absurd hr (by simp)
            · exact h k ht r hr
          · intro h k hkm r hr
            exact h k (List.mem_cons_of_mem _ hkm) r hr
      | some r0 =>
          simp only []
          by_cases hst : r0.state = stateName
          · rw [if_pos hst]
            constructor
            · intro h; exact absurd h (by simp)
            · intro h
              exact absurd hst (h k0 (List.mem_cons_self _ _) r0 hk)
          · rw [if_neg hst]
            rw [ih]
            constructor
            · intro h k hkm r hr
              rcases List.mem_cons.mp hkm with he | ht
              · subst he
                rw [hk] at hr
                have hrr : r0 = r := by simpa using hr
                subst hrr
                exact hst
              · exact h k ht r hr
            · intro h k hkm r hr
              exact h k (List.mem_cons_of_mem _ hkm) r hr

/-! ### The validation predicate against the amended claim -/

/-- Modelled from the amended claim: a row is dropped iff its year field is
the header value, its county id is empty, its vote count is missing,
unparsable, zero or negative, or its candidate label is the total-votes
header, empty, or an over/under-vote marker. The party field is never
examined. -/
def rowDropClaim (d : Row) : Prop :=
  d.year = "year" ∨ d.county_fips = "" ∨
  d.candidatevotes = none ∨ (∃ v, d.candidatevotes = some v ∧ v ≤ 0) ∨
  d.candidate = "TOTAL VOTES CAST" ∨ d.candidate = "" ∨
  isOverUnder (trimStr (upStr d.candidate)) = true

theorem dropRow_iff_claim (d : Row) : dropRow d = true ↔ rowDropClaim d := by
  unfold dropRow rowDropClaim
  cases hv : d.candidatevotes with
  | none => simp [hv]
  | some v =>
      simp only [hv, Bool.or_eq_true, decide_eq_true_eq, Option.some.injEq]
      constructor
      · intro h
        rcases h with ((((h | h) | h) | h) | h) | h
        · exact Or.inl h
        · exact Or.inr (Or.inl h)
        · rcases h with h | h
          · exact Or.inr (Or.inr (Or.inr (Or.inl ⟨v, rfl, le_of_eq h⟩)))
          · exact Or.inr (Or.inr (Or.inr (Or.inl ⟨v, rfl, le_of_lt h⟩)))
        · exact Or.inr (Or.inr (Or.inr (Or.inr (Or.inl h))))
        · exact Or.inr (Or.inr (Or.inr (Or.inr (Or.inr (Or.inl h)))))
        · exact Or.inr (Or.inr (Or.inr (Or.inr (Or.inr (Or.inr h)))))
      · intro h
        rcases h with h | h | h | ⟨w, hw, hle⟩ | h | h | h
        · exact Or.inl (Or.inl (Or.inl (Or.inl (Or.inl h))))
        · exact Or.inl (Or.inl (Or.inl (Or.inl (Or.inr h))))
        · exact absurd h (by simp)
        · have hvw : v = w := by
            have := hw
            simp at this
            exact this.symm ▸ rfl
          subst hvw
          rcases lt_or_eq_of_le hle with hlt | heq
          · exact Or.inl (Or.inl (Or.inl (Or.inr (Or.inr hlt))))
          · exact Or.inl (Or.inl (Or.inl (Or.inr (Or.inl heq))))
        · exact Or.inl (Or.inl (Or.inr h))
        · exact Or.inl (Or.inr h)
        · exact Or.inr h

theorem buildStep_dropped (m : RawData) (d : Row) (h : dropRow d = true) :
    buildStep m d = m := by
  unfold buildStep
  rw [if_pos h]

/-! ### Resolution of a single-mode table -/

theorem resolveModes_single (mo p : String) (v : Int) :
    resolveModes [(mo, [(p, v)])] = [(p, v)] := by
  unfold resolveModes
  by_cases h1 : mo = "TOTAL VOTES"
  · subst h1
    simp [hasKeyA, lookupA, copyFold, setA]
  · by_cases h2 : mo = "TOTAL"
    · subst h2
      simp [hasKeyA, lookupA, copyFold, setA, h1]
    · have hne1 : ¬ mo = "TOTAL VOTES" := h1
      have hne2 : ¬ mo = "TOTAL" := h2
      simp [hasKeyA, lookupA, hne1, hne2, keysA, sumFold, modifyA]

/-! ### Per-year lookup into `calculateResults` output -/

theorem lookup_calculateResults_not_mem (elec : ElecData) :
    ∀ (sr : AssocL (AssocL StateRes)) (cr : AssocL (AssocL CountyRes)) (y : String),
    y ∉ keysA elec →
    lookupA (calculateResults elec sr cr).1 y = lookupA sr y ∧
    lookupA (calculateResults elec sr cr).2 y = lookupA cr y := by
  induction elec with
  | nil => intro sr cr y _; exact ⟨rfl, rfl⟩
  | cons hd tl ih =>
      intro sr cr y hy
      simp only [keysA, List.map, List.mem_cons, not_or] at hy
      have hstep : calculateResults (hd :: tl) sr cr =
          calculateResults tl
            (setA sr hd.1 (calcYear hd.2 ((lookupA sr hd.1).getD [])
              ((lookupA cr hd.1).getD [])).1)
            (setA cr hd.1 (calcYear hd.2 ((lookupA sr hd.1).getD [])
              ((lookupA cr hd.1).getD [])).2) := rfl
      rw [hstep]
      obtain ⟨ih1, ih2⟩ := ih _ _ y (by simpa [keysA] using hy.2)
      rw [ih1, ih2, lookupA_setA, lookupA_setA, if_neg (Ne.symm hy.1),
        if_neg (Ne.symm hy.1)]
      exact ⟨rfl, rfl⟩

theorem lookup_calculateResults_mem (elec : ElecData) :
    ∀ (sr : AssocL (AssocL StateRes)) (cr : AssocL (AssocL CountyRes))
      (y : String) (yd : AssocL (AssocL (List Candidate))),
    (y, yd) ∈ elec → (keysA elec).Nodup →
    lookupA sr y = none → lookupA cr y = none →
    lookupA (calculateResults elec sr cr).1 y = some (calcYear yd [] []).1 ∧
    lookupA (calculateResults elec sr cr).2 y = some (calcYear yd [] []).2 := by
  induction elec with
  | nil => intro sr cr y yd hmem _ _ _; simp at hmem
  | cons hd tl ih =>
      intro sr cr y yd hmem hnd hsr hcr
      simp only [keysA, List.map, List.nodup_cons] at hnd
      have hstep : calculateResults (hd :: tl) sr cr =
          calculateResults tl
            (setA sr hd.1 (calcYear hd.2 ((lookupA sr hd.1).getD [])
              ((lookupA cr hd.1).getD [])).1)
            (setA cr hd.1 (calcYear hd.2 ((lookupA sr hd.1).getD [])
              ((lookupA cr hd.1).getD [])).2) := rfl
      rcases List.mem_cons.mp hmem with he | htl
      · have h1 : y = hd.1 := congrArg Prod.fst he
        have h2 : yd = hd.2 := congrArg Prod.snd he
        subst h1; subst h2
        rw [hstep]
        obtain ⟨hn1, hn2⟩ := lookup_calculateResults_not_mem tl _ _ hd.1
          (by simpa [keysA] using hnd.1)
        rw [hn1, hn2, lookupA_setA, lookupA_setA, if_pos rfl, if_pos rfl, hsr, hcr]
        exact ⟨rfl, rfl⟩
      · have hne : y ≠ hd.1 := by
          intro hc
          subst hc
          exact hnd.1 (by simpa [keysA] using List.mem_map_of_mem Prod.fst htl)
        rw [hstep]
        refine ih _ _ y yd htl (by simpa [keysA] using hnd.2) ?_ ?_
        · rw [lookupA_setA, if_neg (Ne.symm hne)]
          exact hsr
        · rw [lookupA_setA, if_neg (Ne.symm hne)]
          exact hcr

theorem yearWrites_filter_nil (tl : AssocL (AssocL (List Candidate))) :
    ∀ st : String, st ∉ keysA tl →
    (yearWrites tl).filter (fun kv => kv.2.state = st) = [] := by
  induction tl with
  | nil => intro st _; rfl
  | cons hd tl ih =>
      intro st hst
      simp only [keysA, List.map, List.mem_cons, not_or] at hst
      have hcons : yearWrites (hd :: tl) = countyBlock hd.1 hd.2 ++ yearWrites tl := rfl
      rw [hcons, List.filter_append, filter_countyBlock, if_neg (Ne.symm hst.1),
        ih st (by simpa [keysA] using hst.2)]
      rfl

theorem yearWrites_filter_state (yd : AssocL (AssocL (List Candidate))) :
    ∀ (st : String) (cs : AssocL (List Candidate)), (st, cs) ∈ yd → (keysA yd).Nodup →
    (yearWrites yd).filter (fun kv => kv.2.state = st) = countyBlock st cs := by
  induction yd with
  | nil => intro st cs hmem _; simp at hmem
  | cons hd tl ih =>
      intro st cs hmem hnd
      simp only [keysA, List.map, List.nodup_cons] at hnd
      have hcons : yearWrites (hd :: tl) = countyBlock hd.1 hd.2 ++ yearWrites tl := rfl
      rw [hcons, List.filter_append]
      rcases List.mem_cons.mp hmem with he | htl
      · have h1 : st = hd.1 := congrArg Prod.fst he
        have h2 : cs = hd.2 := congrArg Prod.snd he
        subst h1; subst h2
        rw [filter_countyBlock, if_pos rfl,
          yearWrites_filter_nil tl hd.1 (by simpa [keysA] using hnd.1)]
        simp
      · have hne : st ≠ hd.1 := by
          intro hc
          subst hc
          exact hnd.1 (by simpa [keysA] using List.mem_map_of_mem Prod.fst htl)
        rw [filter_countyBlock, if_neg (Ne.symm hne), ih st cs htl
          (by simpa [keysA] using hnd.2)]
        rfl

/-! ### Claim theorems -/

/-- C2: for every county-year mode table (with well-formed per-mode party
maps), the mode resolver returns the `TOTAL VOTES` entry verbatim if
present, else the `TOTAL` entry verbatim if present, else the per-party
sum over the remaining modes, where the fixed component set is excluded
unless neither aggregate mode exists — in which case every mode, the
excluded set included, is summed. -/
theorem claim_C2_mode_resolver (modes : AssocL (AssocL Int))
    (h : ∀ e ∈ modes, (keysA e.2).Nodup) :
    resolveModes modes = resolveModesClaim modes :=
  resolveModes_eq_claim modes h

theorem claim_C2_mode_resolver_witness :
    (∀ e ∈ ([("TOTAL VOTES", [("REPUBLICAN", (100 : Int))]),
             ("ELECTION DAY", [("REPUBLICAN", 60)]),
             ("ABSENTEE", [("REPUBLICAN", 40)])] : AssocL (AssocL Int)),
       (keysA e.2).Nodup) ∧
    resolveModes [("TOTAL VOTES", [("REPUBLICAN", (100 : Int))]),
                  ("ELECTION DAY", [("REPUBLICAN", 60)]),
                  ("ABSENTEE", [("REPUBLICAN", 40)])] =
      resolveModesClaim [("TOTAL VOTES", [("REPUBLICAN", (100 : Int))]),
                         ("ELECTION DAY", [("REPUBLICAN", 60)]),
                         ("ABSENTEE", [("REPUBLICAN", 40)])] ∧
    resolveModes [("TOTAL VOTES", [("REPUBLICAN", (100 : Int))]),
                  ("ELECTION DAY", [("REPUBLICAN", 60)]),
                  ("ABSENTEE", [("REPUBLICAN", 40)])] = [("REPUBLICAN", 100)] ∧
    resolveModes [("ELECTION DAY", [("REPUBLICAN", (60 : Int))]),
                  ("ABSENTEE", [("REPUBLICAN", 40)])] = [("REPUBLICAN", 100)] :=
  ⟨by decide, claim_C2_mode_resolver _ (by decide), by decide, by decide⟩

/-- C3: for every party-to-votes mapping with non-negative counts, the
winner resolver returns the party with the strict maximum count, ties
broken by the first party attaining the maximum in a left-to-right scan,
and an empty or all-zero mapping yields the sentinel `UNKNOWN`. -/
theorem claim_C3_winner_resolver (l : AssocL Int) (h : ∀ x ∈ l, 0 ≤ x.2) :
    determineWinner l = winnerClaim l ∧ (maxFold l 0 = 0 ↔ ∀ x ∈ l, x.2 = 0) :=
  ⟨determineWinner_eq_winnerClaim l, maxFold_zero_iff l h⟩

theorem claim_C3_winner_resolver_witness :
    (∀ x ∈ ([("REPUBLICAN", (50 : Int)), ("DEMOCRAT", 50)] : AssocL Int), 0 ≤ x.2) ∧
    determineWinner [("REPUBLICAN", (50 : Int)), ("DEMOCRAT", 50)] =
      winnerClaim [("REPUBLICAN", (50 : Int)), ("DEMOCRAT", 50)] ∧
    determineWinner [("REPUBLICAN", (50 : Int)), ("DEMOCRAT", 50)] = "REPUBLICAN" ∧
    determineWinner [("REPUBLICAN", (0 : Int)), ("DEMOCRAT", 0)] = "UNKNOWN" :=
  ⟨by decide, (claim_C3_winner_resolver _ (by decide)).1, by decide, by decide⟩

/-- C4: every Alaska row whose county id is a district id of the fixed
table is stored under the mapped borough FIPS, which is itself never a
district id; in particular district `2001` is stored under `02240`. -/
theorem claim_C4_alaska_storage :
    (∀ c b, alaskaFipsMapping c = some b →
      storageKeyOf "ALASKA" c = b ∧ alaskaFipsMapping b = none ∧ ¬ b = c) ∧
    storageKeyOf "ALASKA" "2001" = "02240" := by
  constructor
  · intro c b h
    have hmem : (c, b) ∈ alaskaPairs := lookupA_mem _ _ _ h
    have hall : ∀ e ∈ alaskaPairs,
        storageKeyOf "ALASKA" e.1 = e.2 ∧ alaskaFipsMapping e.2 = none ∧ ¬ e.2 = e.1 := by
      decide
    exact hall (c, b) hmem
  · decide

theorem claim_C4_alaska_storage_witness :
    alaskaFipsMapping "2001" = some "02240" ∧
    storageKeyOf "ALASKA" "2001" = "02240" ∧ alaskaFipsMapping "02240" = none :=
  ⟨by decide, (claim_C4_alaska_storage.1 "2001" "02240" (by decide)).1,
   (claim_C4_alaska_storage.1 "2001" "02240" (by decide)).2.1⟩

/-- C5: for every 5-character topology id, `findCountyFips` equals the
claim's ordered-candidate resolver (correction table first, then the five
candidate keys in the claimed order, first state-matching hit wins); a
returned result always records the target state, and a `none` outcome
means no candidate resolved to a result of the target state. -/
theorem claim_C5_reconciler (store : AssocL CountyRes) (topoId stateName : String)
    (h5 : lenStr topoId = 5) :
    findCountyFips store topoId stateName = findCountyFipsClaim store topoId stateName ∧
    (∀ k r, findCountyFips store topoId stateName = some (k, r) →
      r.state = stateName ∧ lookupA store k = some r ∧ k ∈ fcfFormats topoId stateName) ∧
    (findCountyFips store topoId stateName = none ↔
      ∀ f ∈ fcfFormats topoId stateName, ∀ r, lookupA store f = some r →
        ¬ r.state = stateName) := by
  have heq : findCountyFips store topoId stateName =
      tryKeys store stateName (fcfFormats topoId stateName) :=
    findSome_eq_tryKeys store stateName (fcfFormats topoId stateName)
  refine ⟨?_, ?_, ?_⟩
  · rw [heq, fcfFormats_eq_claim topoId stateName h5]
    rfl
  · intro k r h
    rw [heq] at h
    obtain ⟨h1, h2, h3⟩ := tryKeys_sound store stateName _ k r h
    exact ⟨h2, h1, h3⟩
  · rw [heq]
    exact tryKeys_none_iff store stateName _

theorem claim_C5_reconciler_witness :
    lenStr "13211" = 5 ∧
    findCountyFips [("13209", ⟨"REPUBLICAN", [("REPUBLICAN", 7)], "GEORGIA", "Morgan", []⟩)]
      "13211" "GEORGIA" =
      findCountyFipsClaim
        [("13209", ⟨"REPUBLICAN", [("REPUBLICAN", 7)], "GEORGIA", "Morgan", []⟩)]
        "13211" "GEORGIA" ∧
    findCountyFips [("13209", ⟨"REPUBLICAN", [("REPUBLICAN", 7)], "GEORGIA", "Morgan", []⟩)]
      "13211" "GEORGIA" =
      some ("13209", ⟨"REPUBLICAN", [("REPUBLICAN", 7)], "GEORGIA", "Morgan", []⟩) :=
  ⟨by decide, (claim_C5_reconciler _ "13211" "GEORGIA" (by decide)).1, by decide⟩

/-- C6 counterexample: a row whose party field is missing (empty) but
which is otherwise valid is NOT dropped — it is accumulated — although the
claim requires rows with a missing or invalid party to be discarded. -/
theorem claim_C6_counterexample :
    (Row.mk "2020" "ALABAMA" "01001" "AUTAUGA" "JOHN DOE" "" "TOTAL" (some 5)).party
      = "" ∧
    dropRow (Row.mk "2020" "ALABAMA" "01001" "AUTAUGA" "JOHN DOE" "" "TOTAL" (some 5))
      = false ∧
    ¬ buildStep [] (Row.mk "2020" "ALABAMA" "01001" "AUTAUGA" "JOHN DOE" "" "TOTAL"
      (some 5)) = [] := by
  refine ⟨rfl, by decide, ?_⟩
  intro h
  have : ([] : RawData).length = 1 := by
    conv_lhs => rw [← h]
    decide
  simp at this

/-- C6 (amended): a row is silently dropped iff its year field is the
header value `year`, its county id is empty, its vote count is missing,
unparsable, zero, or negative, or its candidate label is
`TOTAL VOTES CAST`, empty, or an over/under-vote marker (case-insensitive
exact or substring match); the party field is never validated, and a
dropped row leaves the accumulation untouched. -/
theorem claim_C6_row_validation (d : Row) (m : RawData) :
    (dropRow d = true ↔ rowDropClaim d) ∧
    (dropRow d = true → buildStep m d = m) :=
  ⟨dropRow_iff_claim d, buildStep_dropped m d⟩

theorem claim_C6_row_validation_witness :
    dropRow (Row.mk "2020" "ALABAMA" "01001" "AUTAUGA" "OVERVOTES" "X" "TOTAL" (some 5))
      = true ∧
    buildStep [] (Row.mk "2020" "ALABAMA" "01001" "AUTAUGA" "OVERVOTES" "X" "TOTAL"
      (some 5)) = [] :=
  ⟨by decide,
   (claim_C6_row_validation
     (Row.mk "2020" "ALABAMA" "01001" "AUTAUGA" "OVERVOTES" "X" "TOTAL" (some 5))
     []).2 (by decide)⟩

/-- C10: a row with an empty (missing) mode field is accumulated under the
mode label `TOTAL`; consequently a county-year table holding a `TOTAL`
bucket and no `TOTAL VOTES` bucket resolves to the `TOTAL` bucket
verbatim, ignoring every explicitly-labelled component mode. -/
theorem claim_C10_default_mode :
    (∀ d : Row, d.mode = "" → modeOf d = "TOTAL") ∧
    (∀ (modes : AssocL (AssocL Int)) (pv : AssocL Int),
      hasKeyA modes "TOTAL VOTES" = false → lookupA modes "TOTAL" = some pv →
      (keysA pv).Nodup → resolveModes modes = pv) := by
  constructor
  · intro d hd
    simp [modeOf, hd]
  · intro modes pv h1 h2 hnd
    unfold resolveModes
    rw [h1]
    have h2' : hasKeyA modes "TOTAL" = true := by
      simp [hasKeyA, h2]
    rw [h2']
    simp only [Bool.false_eq_true, if_false, if_true, h2, Option.getD_some]
    exact copyFold_nil pv hnd

theorem claim_C10_default_mode_witness :
    modeOf (Row.mk "2020" "OHIO" "39001" "ADAMS" "JOE" "DEMOCRAT" "" (some 5)) = "TOTAL" ∧
    hasKeyA ([("ELECTION DAY", [("REPUBLICAN", (60 : Int))]), ("TOTAL", [("REPUBLICAN", 7)])])
      "TOTAL VOTES" = false ∧
    resolveModes [("ELECTION DAY", [("REPUBLICAN", (60 : Int))]), ("TOTAL", [("REPUBLICAN", 7)])]
      = [("REPUBLICAN", 7)] :=
  ⟨claim_C10_default_mode.1 _ rfl, by decide,
   claim_C10_default_mode.2 _ _ (by decide) (by decide) (by decide)⟩


/-- C1: within each processed year (processing from a fresh store, with the
program's own key-uniqueness invariants), for every state of that year and
every party, the sum of the finalized county-result vote entries recorded
for that state equals the state result's vote entry. -/
theorem claim_C1_state_totals (elec : ElecData) (y : String)
    (yd : AssocL (AssocL (List Candidate))) (st : String)
    (cs : AssocL (List Candidate)) (p : String)
    (hY : (keysA elec).Nodup) (hyd : (y, yd) ∈ elec)
    (hndS : (keysA yd).Nodup) (hndK : (allStorageKeys yd).Nodup)
    (hmem : (st, cs) ∈ yd) :
    ∃ stRes : StateRes,
      lookupA ((lookupA (calculateResults elec [] []).1 y).getD []) st = some stRes ∧
      ((((lookupA (calculateResults elec [] []).2 y).getD []).filter
          (fun kv => kv.2.state = st)).map (fun kv => getVA kv.2.votes p)).sum =
        getVA stRes.votes p := by
  obtain ⟨h1, h2⟩ := lookup_calculateResults_mem elec [] [] y yd hyd hY rfl rfl
  rw [h1, h2]
  simp only [Option.getD_some]
  rw [calcYear_eq yd [] [] hndS (by simp [keysA]) hndK (by simp [keysA])]
  simp only [List.nil_append]
  refine ⟨mkStateRes cs, ?_, ?_⟩
  · exact lookupA_map_entry yd (fun e => mkStateRes e.2) st cs hmem hndS
  · have hflt := yearWrites_filter_state yd st cs hmem hndS
    rw [show (yd.flatMap fun sEntry => countyBlock sEntry.1 sEntry.2) = yearWrites yd
      from rfl, hflt, sum_countyBlock]
    rw [show (mkStateRes cs).votes = stateVotesOf cs from rfl, getVA_stateVotesOf]

/-- A two-county, one-state, one-year store used to witness C1. -/
def exCounties : AssocL (List Candidate) :=
  [("01001", [Candidate.mk "X" "DEMOCRAT" 3 "Autauga" "PROCESSED",
              Candidate.mk "Y" "REPUBLICAN" 4 "Autauga" "PROCESSED"]),
   ("01003", [Candidate.mk "X" "DEMOCRAT" 5 "Baldwin" "PROCESSED"])]

def exElec : ElecData := [("2020", [("ALABAMA", exCounties)])]

theorem claim_C1_state_totals_witness :
    (keysA exElec).Nodup ∧
    (∃ stRes : StateRes,
      lookupA ((lookupA (calculateResults exElec [] []).1 "2020").getD []) "ALABAMA" =
        some stRes ∧
      ((((lookupA (calculateResults exElec [] []).2 "2020").getD []).filter
          (fun kv => kv.2.state = "ALABAMA")).map
          (fun kv => getVA kv.2.votes "DEMOCRAT")).sum = getVA stRes.votes "DEMOCRAT") :=
  ⟨by decide,
   claim_C1_state_totals exElec "2020" [("ALABAMA", exCounties)] "ALABAMA" exCounties
     "DEMOCRAT" (by decide) (by decide) (by decide) (by decide) (by decide)⟩

/-- C9: running the aggregation routine a second time on the identical
raw-row input (straight after a first run from a fresh store, bypassing
the scheduler's processed-set guard) leaves every stored county result
unchanged: the county-result store lookups agree at every year and county
key. -/
theorem claim_C9_idempotent_aggregation (rows : List Row) (y k : String) :
    lookupA ((lookupA (processElectionData rows
        (processElectionData rows emptyStore)).cr y).getD []) k =
      lookupA ((lookupA (processElectionData rows emptyStore).cr y).getD []) k := by
  have hwf := wf_buildRawData rows
  have hcr1 : (processElectionData rows emptyStore).cr =
      List.foldl crStep [] (mergeRaw (buildRawData rows) []) := by
    show (calculateResults (mergeRaw (buildRawData rows) []) [] []).2 = _
    exact calculateResults_snd _ [] []
  have hcr2 : (processElectionData rows (processElectionData rows emptyStore)).cr =
      List.foldl crStep ((processElectionData rows emptyStore).cr)
        (mergeRaw (buildRawData rows) []) := by
    show (calculateResults (mergeRaw (buildRawData rows)
      (mergeRaw (buildRawData rows) [])) _ _).2 = _
    rw [idem_mergeRaw _ _ hwf]
    exact calculateResults_snd _ _ _
  have hnd : (keysA (mergeRaw (buildRawData rows) [])).Nodup :=
    nodup_keys_mergeRaw _ [] List.nodup_nil
  rw [hcr2, hcr1]
  by_cases hy : y ∈ keysA (mergeRaw (buildRawData rows) [])
  · obtain ⟨yd, he⟩ : ∃ x, (y, x) ∈ mergeRaw (buildRawData rows) [] := by
      simpa [keysA] using hy
    have hinner : lookupA (List.foldl crStep [] (mergeRaw (buildRawData rows) [])) y
        = some (applySets [] (yearWrites yd)) := by
      rw [lookup_crFold_mem _ _ y yd he hnd]
      simp
    rw [lookup_crFold_mem _ _ y yd he hnd, hinner]
    simp only [Option.getD_some]
    exact lookup_applySets_twice _ _ _
  · rw [lookup_crFold_not_mem _ _ y hy]

theorem processYearData_noop (b : App) (year : String)
    (h : year ∈ b.processedYears) : processYearData b year = b := by
  unfold processYearData
  rw [if_pos (Or.inl h)]

theorem processStateCountyData_noop (b : App) (year stateName : String)
    (h : (year ++ "-" ++ stateName) ∈ b.processedStates) :
    processStateCountyData b year stateName = b := by
  unfold processStateCountyData
  rw [if_pos h]

/-- C8: with the CSV loaded and a year (and state cache key) not yet
processed, the first request runs the aggregation routine exactly once
(call counter incremented by one) and every repeated request — any number
of them — is a no-op returning the state unchanged, for both the per-year
and the per-(year, state) scheduler entry points. -/
theorem claim_C8_lazy_scheduler (a : App) (rows : List Row) (year stateName : String)
    (hcsv : a.rawCsv = some rows)
    (hy : year ∉ a.processedYears)
    (hs : (year ++ "-" ++ stateName) ∉ a.processedStates) :
    ((processYearData a year).aggCalls = a.aggCalls + 1 ∧
     processYearData (processYearData a year) year = processYearData a year ∧
     ∀ n : Nat, (fun b => processYearData b year)^[n] (processYearData a year) =
       processYearData a year) ∧
    ((processStateCountyData a year stateName).aggCalls = a.aggCalls + 1 ∧
     processStateCountyData (processStateCountyData a year stateName) year stateName =
       processStateCountyData a year stateName ∧
     ∀ n : Nat, (fun b => processStateCountyData b year stateName)^[n]
       (processStateCountyData a year stateName) =
       processStateCountyData a year stateName) := by
  have hcond : ¬ (year ∈ a.processedYears ∨ a.rawCsv = none) := by
    rw [hcsv]
    simp [hy]
  have hfirstY : processYearData a year =
      { a with
        store := processElectionData (rows.filter (fun d => d.year = year)) a.store,
        processedYears := a.processedYears ++ [year],
        aggCalls := a.aggCalls + 1 } := by
    unfold processYearData
    rw [if_neg hcond, hcsv]
  have hmemY : year ∈ (processYearData a year).processedYears := by
    rw [hfirstY]
    simp
  have hnoopY : processYearData (processYearData a year) year = processYearData a year :=
    processYearData_noop _ year hmemY
  have hiterY : ∀ n : Nat, (fun b => processYearData b year)^[n] (processYearData a year) =
      processYearData a year := by
    intro n
    induction n with
    | zero => rfl
    | succ n ih =>
        rw [Function.iterate_succ_apply, hnoopY, ih]
  have hfirstS : processStateCountyData a year stateName =
      { a with
        store := processStateElectionData
          (rows.filter (fun d => d.year = year ∧ d.state = stateName)) stateName a.store,
        processedStates := a.processedStates ++ [year ++ "-" ++ stateName],
        aggCalls := a.aggCalls + 1 } := by
    unfold processStateCountyData
    rw [if_neg hs, hcsv]
  have hmemS : (year ++ "-" ++ stateName) ∈
      (processStateCountyData a year stateName).processedStates := by
    rw [hfirstS]
    simp
  have hnoopS : processStateCountyData (processStateCountyData a year stateName)
      year stateName = processStateCountyData a year stateName :=
    processStateCountyData_noop _ year stateName hmemS
  have hiterS : ∀ n : Nat, (fun b => processStateCountyData b year stateName)^[n]
      (processStateCountyData a year stateName) =
      processStateCountyData a year stateName := by
    intro n
    induction n with
    | zero => rfl
    | succ n ih =>
        rw [Function.iterate_succ_apply, hnoopS, ih]
  exact ⟨⟨by rw [hfirstY], hnoopY, hiterY⟩, ⟨by rw [hfirstS], hnoopS, hiterS⟩⟩

theorem claim_C8_lazy_scheduler_witness :
    (App.mk emptyStore [] [] (some []) 0).rawCsv = some [] ∧
    (processYearData (App.mk emptyStore [] [] (some []) 0) "2020").aggCalls = 0 + 1 ∧
    processYearData (processYearData (App.mk emptyStore [] [] (some []) 0) "2020") "2020" =
      processYearData (App.mk emptyStore [] [] (some []) 0) "2020" ∧
    processStateCountyData (processStateCountyData
        (App.mk emptyStore [] [] (some []) 0) "2020" "OHIO") "2020" "OHIO" =
      processStateCountyData (App.mk emptyStore [] [] (some []) 0) "2020" "OHIO" := by
  have h := claim_C8_lazy_scheduler (App.mk emptyStore [] [] (some []) 0) [] "2020" "OHIO"
    rfl (by decide) (by decide)
  exact ⟨rfl, h.1.1, h.1.2.1, h.2.2.1⟩

theorem modifyA_singleton_same {α : Type} (k : String) (v d : α) (f : α → α) :
    modifyA [(k, v)] k d f = [(k, f v)] := by
  simp [modifyA]

/-- C7: two valid Rhode Island rows with distinct 10-character town codes
sharing a 5-character prefix (same year, mode and party) are aggregated
into a single CountyResult stored under that prefix, whose tally for the
party is the sum of the two rows' votes. -/
theorem claim_C7_rhode_island (r1 r2 : Row) (v1 v2 : Int)
    (hd1 : dropRow r1 = false) (hd2 : dropRow r2 = false)
    (hs1 : r1.state = "RHODE ISLAND") (hs2 : r2.state = "RHODE ISLAND")
    (hl1 : lenStr r1.county_fips = 10) (hl2 : lenStr r2.county_fips = 10)
    (_hneq : ¬ r1.county_fips = r2.county_fips)
    (hpre : takeStr r2.county_fips 5 = takeStr r1.county_fips 5)
    (hyr : r2.year = r1.year) (hmd : r2.mode = r1.mode) (hpt : r2.party = r1.party)
    (hv1 : r1.candidatevotes = some v1) (hv2 : r2.candidatevotes = some v2) :
    ∃ res : CountyRes,
      lookupA (processElectionData [r1, r2] emptyStore).cr r1.year =
        some [(takeStr r1.county_fips 5, res)] ∧
      res.state = "RHODE ISLAND" ∧
      getVA res.votes (normalizeParty r1.party) = v1 + v2 := by
  have hcf1ne : ¬ r1.county_fips = "" := by
    intro h
    rw [h] at hl1
    exact absurd hl1 (by decide)
  have hcf2ne : ¬ r2.county_fips = "" := by
    intro h
    rw [h] at hl2
    exact absurd hl2 (by decide)
  have hck1 : countyKey r1 = takeStr r1.county_fips 5 := by
    unfold countyKey
    rw [if_pos ⟨hs1, hcf1ne, hl1⟩]
  have hck2 : countyKey r2 = takeStr r1.county_fips 5 := by
    unfold countyKey
    rw [if_pos ⟨hs2, hcf2ne, hl2⟩, hpre]
  have hmo2 : modeOf r2 = modeOf r1 := by
    unfold modeOf
    rw [hmd]
  have hst : r2.state = r1.state := by
    rw [hs1, hs2]
  have hvo1 : votesOf r1 = v1 := by
    unfold votesOf
    rw [hv1]
    rfl
  have hvo2 : votesOf r2 = v2 := by
    unfold votesOf
    rw [hv2]
    rfl
  have hb1 : buildStep ([] : RawData) r1 =
      [(r1.year, [(r1.state, [(takeStr r1.county_fips 5,
        ⟨[(modeOf r1, [(normalizeParty r1.party, 0 + v1)])], r1.county_name⟩)])])] := by
    unfold buildStep
    simp only [hd1, Bool.false_eq_true, if_false]
    rw [hck1, hvo1]
    rfl
  have hb2 : buildRawData [r1, r2] =
      [(r1.year, [(r1.state, [(takeStr r1.county_fips 5,
        ⟨[(modeOf r1, [(normalizeParty r1.party, (0 + v1) + v2)])],
         r1.county_name⟩)])])] := by
    show buildStep (buildStep [] r1) r2 = _
    rw [hb1]
    unfold buildStep
    simp only [hd2, Bool.false_eq_true, if_false]
    rw [hck2, hvo2, hmo2, hyr, hst, hpt]
    simp only [modifyA_singleton_same]
  have helec : mergeRaw (buildRawData [r1, r2]) [] =
      [(r1.year, [(r1.state, [(takeStr r1.county_fips 5,
        [Candidate.mk (normalizeParty r1.party) (normalizeParty r1.party)
          ((0 + v1) + v2) r1.county_name "PROCESSED"])])])] := by
    rw [hb2]
    unfold mergeRaw mergeYear mergeState
    simp only [List.foldl_cons, List.foldl_nil]
    rw [show (modifyA ([] : ElecData) r1.year [] fun ym =>
      modifyA ym r1.state [] fun sm =>
        setA sm (takeStr r1.county_fips 5)
          (toCandidates (resolveModes (CountyAcc.mk
            [(modeOf r1, [(normalizeParty r1.party, (0 + v1) + v2)])]
            r1.county_name).modes) (CountyAcc.mk
            [(modeOf r1, [(normalizeParty r1.party, (0 + v1) + v2)])]
            r1.county_name).name)) =
      [(r1.year, [(r1.state, [(takeStr r1.county_fips 5,
        toCandidates (resolveModes
          [(modeOf r1, [(normalizeParty r1.party, (0 + v1) + v2)])])
          r1.county_name)])])] from rfl]
    rw [resolveModes_single]
    rfl
  have hsk : storageKeyOf r1.state (takeStr r1.county_fips 5) =
      takeStr r1.county_fips 5 := by
    rw [hs1]
    unfold storageKeyOf
    rw [if_neg]
    intro hcon
    exact absurd hcon.1 (by decide)
  refine ⟨mkCountyRes r1.state
    [Candidate.mk (normalizeParty r1.party) (normalizeParty r1.party)
      ((0 + v1) + v2) r1.county_name "PROCESSED"], ?_, ?_, ?_⟩
  · show lookupA (calculateResults (mergeRaw (buildRawData [r1, r2]) []) [] []).2
      r1.year = _
    rw [helec]
    unfold calculateResults calcYear calcState
    simp only [List.foldl_cons, List.foldl_nil, lookupA_nil, Option.getD_none]
    rw [hsk]
    simp [lookupA, setA]
  · rw [show (mkCountyRes r1.state
      [Candidate.mk (normalizeParty r1.party) (normalizeParty r1.party)
        ((0 + v1) + v2) r1.county_name "PROCESSED"]).state = r1.state from rfl, hs1]
  · show getVA (accumInto []
      [Candidate.mk (normalizeParty r1.party) (normalizeParty r1.party)
        ((0 + v1) + v2) r1.county_name "PROCESSED"]) (normalizeParty r1.party) = v1 + v2
    rw [getVA_accumInto]
    simp [sumVotes, getVA]

/-- Two synthetic Rhode Island town rows sharing the prefix `44001`. -/
def riRow1 : Row :=
  Row.mk "2020" "RHODE ISLAND" "4400100710" "Providence" "JOE" "DEMOCRAT"
    "TOTAL VOTES" (some 10)

def riRow2 : Row :=
  Row.mk "2020" "RHODE ISLAND" "4400100720" "Providence" "JOE" "DEMOCRAT"
    "TOTAL VOTES" (some 20)

theorem claim_C7_rhode_island_witness :
    dropRow riRow1 = false ∧ dropRow riRow2 = false ∧
    takeStr riRow1.county_fips 5 = "44001" ∧
    (∃ res : CountyRes,
      lookupA (processElectionData [riRow1, riRow2] emptyStore).cr riRow1.year =
        some [(takeStr riRow1.county_fips 5, res)] ∧
      res.state = "RHODE ISLAND" ∧
      getVA res.votes (normalizeParty riRow1.party) = 10 + 20) :=
  ⟨by decide, by decide, by decide,
   claim_C7_rhode_island riRow1 riRow2 10 20 (by decide) (by decide) (by decide)
     (by decide) (by decide) (by decide) (by decide) (by decide) (by decide)
     (by decide) (by decide) (by decide) (by decide)⟩

end MagicWall
